import Mathlib

/-
Shallow embedding of the Mandelbrot viewer (src/mandelbrot-viewer.js) and
verification of its specification.

Modelling conventions:
* JavaScript float64 arithmetic is idealised as exact arithmetic.  The escape
  iteration and all viewport geometry are embedded over `ℚ` (every operation
  there is `+`, `-`, `*`, `/` and comparisons); the transcendental
  post-processing (`Math.sqrt`, `Math.log`, `Math.log2`, `Math.atan`) is
  embedded over `ℝ` via `Real.sqrt`, `Real.log`, `Real.logb 2`,
  `Real.arctan`.
* The typed arrays (`Uint32Array`, `Float64Array`, `Uint8Array`) are embedded
  as Lean `List`s with indexed writes (`List.set`, a no-op out of bounds, as a
  JS typed-array write is) and indexed reads `List.getD`.
* The cooperative cancellation flag `scanLoop` can only be observed by the
  scan's row loop at a row boundary (the JS event loop only runs `cancel()`
  while `_scan` is suspended at its `await`).  A run is therefore a function
  of the boundary index at which the flag is first seen cleared, modelled as
  `cancelAt : Option ℕ` (`none` = never cancelled).
-/

namespace Mandelbrot

/-- State of the per-pixel escape loop locals `zr zi tr ti dzr dzi n`
(src/mandelbrot-viewer.js lines 117-124). -/
structure IterState where
  zr : ℚ
  zi : ℚ
  tr : ℚ
  ti : ℚ
  dzr : ℚ
  dzi : ℚ
  n : ℕ
deriving DecidableEq, Repr

/-- One pass of the `while` body (lines 126-140): `z = z^2 + c`,
`dz = 2*z*dz + 1` (the new `z` is used in the `dz` update, as in the source),
then `n` is incremented. -/
def iterStep (cr ci : ℚ) (s : IterState) : IterState :=
  let zi := 2 * s.zr * s.zi + ci
  let zr := s.tr - s.ti + cr
  let tr := zr * zr
  let ti := zi * zi
  let dtr := 2 * (zr * s.dzr - zi * s.dzi) + 1
  let dti := 2 * (zr * s.dzi + zi * s.dzr)
  ⟨zr, zi, tr, ti, dtr, dti, s.n + 1⟩

/-- The `while (n < maxN && tr + ti <= 4.0)` loop (line 125), with explicit
fuel.  Each pass increments `n` and the guard requires `n < maxN`, so fuel
`maxN` starting from `n = 0` always suffices for the loop to exit by its
guard (see `iterLoop_guard_exit`). -/
def iterLoop (maxN : ℕ) (cr ci : ℚ) : ℕ → IterState → IterState
  | 0, s => s
  | fuel + 1, s =>
      if s.n < maxN ∧ s.tr + s.ti ≤ 4 then iterLoop maxN cr ci fuel (iterStep cr ci s) else s

/-- The loop locals all start at zero (lines 117-124). -/
def iterInit : IterState := ⟨0, 0, 0, 0, 0, 0, 0⟩

/-- The full per-pixel escape computation for sample point `c = cr + i*ci`. -/
def pixelIter (maxN : ℕ) (cr ci : ℚ) : IterState := iterLoop maxN cr ci maxN iterInit

/-- `_getMaxN` (lines 84-93): the iteration cap as a step function of
`minDim = min(width, height)`. -/
def getMaxN (width height : ℚ) : ℕ :=
  let minDim := min width height
  if 4 / 10 < minDim then 250
  else if 4 / 100 < minDim then 1000
  else if 4 / 1000 < minDim then 2500
  else if 4 / 10000 < minDim then 5000
  else if 4 / 100000 < minDim then 10000
  else if 4 / 1000000 < minDim then 25000
  else 50000

/-- The stored distance estimate `Math.log(z*z) * z / dz` (lines 143-145) is a
finite float64 (neither an infinity nor NaN) precisely when the exit state
satisfies `0 < tr + ti` (so `z > 0` and `Math.log(z*z)` is finite) and
`0 < dzr*dzr + dzi*dzi` (so the division is by a nonzero finite magnitude);
every quantity involved is then a finite real. -/
def distFinite (s : IterState) : Prop :=
  0 < s.tr + s.ti ∧ 0 < s.dzr * s.dzr + s.dzi * s.dzi

instance (s : IterState) : Decidable (distFinite s) := by
  unfold distFinite; infer_instance

/-- The fields of a `Mandelbrot` object (constructor, lines 20-60).
`imgWidth`/`imgHeight` are the fixed canvas resolution; `center`, `width`,
`height` describe the scanned region; `ns`, `finalang`, `dist`, `dwell`,
`pix` are the five per-pixel result arrays (`this.image`'s RGB triples are
kept too; its alpha bytes are always written 255 and are not modelled). -/
structure MState where
  imgWidth : ℕ
  imgHeight : ℕ
  centerRe : ℚ
  centerIm : ℚ
  width : ℚ
  height : ℚ
  inc : ℚ
  colorFuncId : ℕ
  maxN : ℕ
  scanning : Bool
  scanLoop : Bool
  scanDone : Bool
  ns : List ℕ
  finalang : List ℝ
  dist : List ℝ
  dwell : List ℝ
  pix : List ℕ
  image : List (ℝ × ℝ × ℝ)

/-- `this.imgSize = this.imgWidth * this.imgHeight` (line 31). -/
def imgSize (st : MState) : ℕ := st.imgWidth * st.imgHeight

/-- Body of the `_resetDataStructs` loop at one index `k` (lines 65-71). -/
def resetAt (st : MState) (k : ℕ) : MState :=
  { st with
    ns := st.ns.set k 0
    finalang := st.finalang.set k 0
    dist := st.dist.set k 0
    dwell := st.dwell.set k 0
    pix := st.pix.set k 1 }

/-- The `for (let k = 0; k < n; ++k)` loop of `_resetDataStructs`;
`resetLoop st n` has performed the iterations `k = 0, …, n-1`. -/
def resetLoop (st : MState) : ℕ → MState
  | 0 => st
  | n + 1 => resetAt (resetLoop st n) n

/-- `_resetDataStructs` (lines 64-72). -/
def resetDataStructs (st : MState) : MState := resetLoop st (imgSize st)

/-- The constructor (lines 20-60): fit the initial side-4 region to the
canvas aspect ratio, allocate the five zero-filled typed arrays (and the
image buffer), then `_resetDataStructs`. -/
def mkMandelbrot (imgWidth imgHeight : ℕ) (colorFuncId : ℕ) : MState :=
  let n := imgWidth * imgHeight
  let ratio : ℚ := (imgWidth : ℚ) / (imgHeight : ℚ)
  let width : ℚ := if 1 ≤ ratio then 4 * ratio else 4
  let height : ℚ := if 1 ≤ ratio then 4 else 4 / ratio
  resetDataStructs
    { imgWidth := imgWidth
      imgHeight := imgHeight
      centerRe := 0
      centerIm := 0
      width := width
      height := height
      inc := width / (imgWidth : ℚ)
      colorFuncId := colorFuncId
      maxN := getMaxN width height
      scanning := false
      scanLoop := false
      scanDone := true
      ns := List.replicate n 0
      finalang := List.replicate n 0
      dist := List.replicate n 0
      dwell := List.replicate n 0
      pix := List.replicate n 0
      image := List.replicate n (0, 0, 0) }

/-- `Mandelbrot.LOG2_LOG2_2 = Math.log2(Math.log2(2.0))` (line 11). -/
noncomputable def LOG2_LOG2_2 : ℝ := Real.logb 2 (Real.logb 2 2)

/-- `Mandelbrot.LOG_BIG_NUM = Math.log(1000000)` (line 12). -/
noncomputable def LOG_BIG_NUM : ℝ := Real.log 1000000

/-- The stored distance estimate (lines 143-146):
`z = sqrt(tr+ti)`, `dz = sqrt(dzr^2+dzi^2)`, `dist = log(z*z) * z / dz`. -/
noncomputable def distOf (s : IterState) : ℝ :=
  let z := Real.sqrt ((s.tr + s.ti : ℚ) : ℝ)
  let dz := Real.sqrt ((s.dzr * s.dzr + s.dzi * s.dzi : ℚ) : ℝ)
  Real.log (z * z) * z / dz

/-- The stored final angle `Math.atan(zr / zi)` (line 149).  (For `zi = 0`,
JS computes `atan(±Infinity) = ±π/2` while the `ℚ` idealisation has
`zr / 0 = 0`; no verified claim depends on that edge value.) -/
noncomputable def finalangOf (s : IterState) : ℝ :=
  Real.arctan ((s.zr : ℝ) / (s.zi : ℝ))

/-- The stored smooth dwell `n + log2(log2(z)) - LOG2_LOG2_2` (line 150). -/
noncomputable def dwellOf (s : IterState) : ℝ :=
  (s.n : ℝ) + Real.logb 2 (Real.logb 2 (Real.sqrt ((s.tr + s.ti : ℚ) : ℝ))) - LOG2_LOG2_2

/-- Storing one pixel's results (lines 147-150): `ns[k] = n; dist[k] = dist;
finalang[k] = atan(zr/zi); dwell[k] = …`. -/
noncomputable def writePixel (st : MState) (k : ℕ) (r : IterState) : MState :=
  { st with
    ns := st.ns.set k r.n
    dist := st.dist.set k (distOf r)
    finalang := st.finalang.set k (finalangOf r)
    dwell := st.dwell.set k (dwellOf r) }

/-- The inner `for (let j = 0; j < imgWidth; ++j, ci += inc)` column loop of
`_scan` (lines 116-152), recursing on the remaining column count: the pixel at
index `k` is computed at sample `(cr, ci)` and stored, then `ci` and `k`
advance. -/
noncomputable def scanCols : MState → ℚ → ℚ → ℕ → ℕ → MState
  | st, _, _, _, 0 => st
  | st, cr, ci, k, cols + 1 =>
      scanCols (writePixel st k (pixelIter st.maxN cr ci)) cr (ci + st.inc) (k + 1) cols

/-- Value of the `scanLoop` flag at row-boundary check `i` when cancellation
first takes effect at boundary `cancelAt` (`none` = `cancel()` never runs
during the scan). -/
def flagAt : Option ℕ → ℕ → Bool
  | none, _ => true
  | some m, i => decide (i < m)

/-- The outer `for (let i = 0; scanLoop && i < imgHeight; ++i, cr += inc)` row
loop (lines 114-158); `fuel` is the remaining row count (the `i < imgHeight`
half of the guard), the `scanLoop` half is `flagAt cancelAt i`.  Each row runs
the column loop from `ci = ciIni` and advances `cr` and `k` by `inc` and
`imgWidth`. -/
noncomputable def scanRows : MState → Option ℕ → ℚ → ℚ → ℕ → ℕ → ℕ → MState
  | st, _, _, _, _, _, 0 => st
  | st, cancelAt, ciIni, cr, i, k, fuel + 1 =>
      if flagAt cancelAt i then
        scanRows (scanCols st cr ciIni k st.imgWidth) cancelAt ciIni (cr + st.inc) (i + 1)
          (k + st.imgWidth) fuel
      else st

/-- The preamble of `_scan` (lines 97-106): set the run flags, reset the data
arrays, refresh `maxN` and `inc`.  (`this.colorFunc = this._getColorFunc()` is
modelled by dispatching on `colorFuncId` at colouring time, see
`colorFuncOf`.) -/
def scanPrep (st : MState) : MState :=
  let st1 := resetDataStructs { st with scanning := true, scanLoop := true, scanDone := false }
  { st1 with
    maxN := getMaxN st1.width st1.height
    inc := st1.width / (st1.imgWidth : ℚ) }

/-- `_scan` (lines 96-162): preamble, then the row sweep starting from
`cr = center[0] - height/2 + inc/2`, `ciIni = center[1] - width/2 + inc/2`,
`i = k = 0`; finally `scanning = false` and the promise resolves to the
current value of `scanLoop` (`false` exactly when `cancel()` ran during the
sweep, i.e. when the cancellation boundary is at most `imgHeight`). -/
noncomputable def scanRun (st : MState) (cancelAt : Option ℕ) : MState × Bool :=
  let st1 := scanPrep st
  let cr0 := st1.centerRe - st1.height / 2 + st1.inc / 2
  let ciIni := st1.centerIm - st1.width / 2 + st1.inc / 2
  let st2 := scanRows st1 cancelAt ciIni cr0 0 0 st1.imgHeight
  let outcome := flagAt cancelAt st1.imgHeight
  ({ st2 with scanning := false, scanLoop := outcome }, outcome)

/-- `_hsvToRgb` (lines 184-200).  `i % 6` is the JS remainder; for the
in-range inputs produced by `_colorCheckered` (`h ∈ [0,1)`) the floor `i` is
in `{0,…,5}`, where JS `%` and `Int.emod` agree; the fall-through case (JS
leaves `r`, `g`, `b` undefined) is unreachable there and mapped to `(0,0,0)`. -/
noncomputable def hsvToRgb (h s v : ℝ) : ℝ × ℝ × ℝ :=
  let i : ℤ := ⌊h * 6⌋
  let f : ℝ := h * 6 - (i : ℝ)
  let p := v * (1 - s)
  let q := v * (1 - f * s)
  let t := v * (1 - (1 - f) * s)
  let rgb : ℝ × ℝ × ℝ :=
    if i % 6 = 0 then (v, t, p)
    else if i % 6 = 1 then (q, v, p)
    else if i % 6 = 2 then (p, v, t)
    else if i % 6 = 3 then (p, q, v)
    else if i % 6 = 4 then (t, p, v)
    else if i % 6 = 5 then (v, p, q)
    else (0, 0, 0)
  (rgb.1 * 255, rgb.2.1 * 255, rgb.2.2 * 255)

/-- `_colorCheckered` (lines 204-243).  `dwell % 2` is the JS float remainder
of the floored dwell; its truthiness (`≠ 0`) agrees with `Int.emod _ 2 ≠ 0`. -/
noncomputable def colorCheckered (st : MState) (k : ℕ) : ℝ × ℝ × ℝ :=
  if st.maxN ≤ st.ns.getD k 0 then (255, 255, 255)
  else
    let dwellF : ℤ := ⌊st.dwell.getD k 0⌋
    let finalrad : ℝ := st.dwell.getD k 0 - (⌊st.dwell.getD k 0⌋ : ℝ)
    let dscale : ℝ := Real.logb 2 (st.dist.getD k 0 / (st.inc : ℝ))
    let value : ℝ := if 0 < dscale then 1 else if -10 < dscale then (10 + dscale) / 10 else 0
    let p : ℝ := Real.log (dwellF : ℝ) / LOG_BIG_NUM
    let pangrad : ℝ × ℝ × ℝ :=
      if p < 1 / 2 then
        let p2 := 1 - 1.5 * p
        (p2, 1 - p2, Real.sqrt p2)
      else
        let p2 := 1.5 * p - 1 / 2
        (p2, p2, Real.sqrt p2)
    let angle := pangrad.2.1
    let radius := pangrad.2.2
    let value2 := if dwellF % 2 ≠ 0 then value * 0.85 else value
    let radius2 := if dwellF % 2 ≠ 0 then radius * 0.667 else radius
    let angle2 := if 0 < st.finalang.getD k 0 then angle + 0.02 else angle
    let angle3 := angle2 + 0.0001 * finalrad
    let hue := angle3 * 10 - (⌊angle3 * 10⌋ : ℝ)
    let saturation := radius2 - (⌊radius2⌋ : ℝ)
    hsvToRgb hue saturation value2

/-- `_colorCheckeredBlackAndWhite` (lines 246-250): luma-grayscale of the
checkered colour, `Math.round` being round-half-up `⌊x + 1/2⌋`. -/
noncomputable def colorCheckeredBlackAndWhite (st : MState) (k : ℕ) : ℝ × ℝ × ℝ :=
  let c := colorCheckered st k
  let gray : ℝ := (round (c.1 * 0.299 + c.2.1 * 0.587 + c.2.2 * 0.114) : ℤ)
  (gray, gray, gray)

/-- `_getColorFunc` dispatch (lines 75-81): id 0 is checkered, id 1 is the
black-and-white variant, anything else falls back to checkered. -/
noncomputable def colorFuncOf (st : MState) (k : ℕ) : ℝ × ℝ × ℝ :=
  if st.colorFuncId = 0 then colorCheckered st k
  else if st.colorFuncId = 1 then colorCheckeredBlackAndWhite st k
  else colorCheckered st k

/-- `_color` (lines 254-258): an unprocessed pixel (`ns[k] == 0`) is black and
`pix[k]` is left alone; otherwise `pix[k]` is cleared and the selected colour
function is applied (it does not read `pix`, so the order is immaterial). -/
noncomputable def colorPixel (st : MState) (k : ℕ) : MState × (ℝ × ℝ × ℝ) :=
  if st.ns.getD k 0 = 0 then (st, (0, 0, 0))
  else ({ st with pix := st.pix.set k 0 }, colorFuncOf st k)

/-- The `for (let k = 0; k < imgSize; ++k)` loop of `render` (lines 264-273):
`renderPixels st n` has performed the iterations `k = 0, …, n-1`, each of
which, when `pix[k]` is truthy, colours pixel `k` and writes the result into
the image buffer. -/
noncomputable def renderPixels (st : MState) : ℕ → MState
  | 0 => st
  | k + 1 =>
      let st' := renderPixels st k
      if st'.pix.getD k 0 ≠ 0 then
        let r := colorPixel st' k
        { r.1 with image := r.1.image.set k r.2 }
      else st'

/-- `render` (lines 262-278): when the previous scan has not yet been fully
painted, repaint every flagged pixel and, if the engine is no longer
scanning, latch `scanDone`.  (The `putImageData` call to the canvas is
external.) -/
noncomputable def render (st : MState) : MState :=
  if st.scanDone then st
  else
    let st1 := renderPixels st (imgSize st)
    if st1.scanning then st1 else { st1 with scanDone := true }

/-- Lengths of the five per-pixel result arrays all equal
`imgWidth * imgHeight`. -/
def wellSized (st : MState) : Prop :=
  st.ns.length = imgSize st ∧ st.finalang.length = imgSize st ∧
    st.dist.length = imgSize st ∧ st.dwell.length = imgSize st ∧
    st.pix.length = imgSize st

instance (st : MState) : Decidable (wellSized st) := by
  unfold wellSized; infer_instance

/-- The four scan-written entries of pixel `k`'s record, as a tuple:
`(iterationCount, distanceEstimate, finalAngle, smoothDwell)`. -/
noncomputable def pixRec (st : MState) (k : ℕ) : ℕ × ℝ × ℝ × ℝ :=
  (st.ns.getD k 0, st.dist.getD k 0, st.finalang.getD k 0, st.dwell.getD k 0)

/-- The same tuple as computed from an escape-loop exit state. -/
noncomputable def iterRec (r : IterState) : ℕ × ℝ × ℝ × ℝ :=
  (r.n, distOf r, finalangOf r, dwellOf r)

/-- Closed form of the sample real part for row `i` (the spec's description of
the scan geometry): `center_re - height/2 + (i + 1/2) * inc` with
`inc = width / imgWidth`. -/
def crAt (st : MState) (i : ℕ) : ℚ :=
  st.centerRe - st.height / 2 + ((i : ℚ) + 1 / 2) * (st.width / (st.imgWidth : ℚ))

/-- Closed form of the sample imaginary part for column `j`:
`center_im - width/2 + (j + 1/2) * inc`. -/
def ciAt (st : MState) (j : ℕ) : ℚ :=
  st.centerIm - st.width / 2 + ((j : ℚ) + 1 / 2) * (st.width / (st.imgWidth : ℚ))

/-- A concrete engine state over a 1×1 canvas showing the default view
(centre `(0,0)`, side 4), mid-scan, used to instantiate the verified
properties. -/
def sampleState : MState :=
  { imgWidth := 1
    imgHeight := 1
    centerRe := 0
    centerIm := 0
    width := 4
    height := 4
    inc := 4
    colorFuncId := 0
    maxN := 250
    scanning := true
    scanLoop := true
    scanDone := false
    ns := [0]
    finalang := [0]
    dist := [0]
    dwell := [0]
    pix := [1]
    image := [(0, 0, 0)] }

/-- A concrete engine state over a 1×2 canvas (one column, two rows) showing
the default view for that aspect ratio (width 4, height 8), used to
instantiate the verified properties. -/
def sampleState2 : MState :=
  { imgWidth := 1
    imgHeight := 2
    centerRe := 0
    centerIm := 0
    width := 4
    height := 8
    inc := 4
    colorFuncId := 0
    maxN := 250
    scanning := false
    scanLoop := false
    scanDone := true
    ns := [0, 0]
    finalang := [0, 0]
    dist := [0, 0]
    dwell := [0, 0]
    pix := [1, 1]
    image := [(0, 0, 0), (0, 0, 0)] }

end Mandelbrot

namespace MandelbrotControls

/-- A viewport `{center, width, height}` as stored in `this.params`, in the
`Mandelbrot` object, and in the `zoomChain` entries.  (`params.colorFuncId`
plays no role in the navigation claims and is not modelled.) -/
structure Viewport where
  centerRe : ℚ
  centerIm : ℚ
  width : ℚ
  height : ℚ
deriving DecidableEq, Repr

/-- Navigation-controller state: `params` (the candidate viewport), the
viewport last committed to the `Mandelbrot` engine via
`_setMandelbrotParams`, and the zoom-history stack.  The stack's TOP is the
HEAD of the list: JS `push` is cons, JS `pop` is tail, and the JS read
`zoomChain[zoomChain.length - 1]` is `head?`. -/
structure Ctrl where
  params : Viewport
  committed : Viewport
  zoomChain : List Viewport
deriving DecidableEq, Repr

/-- `_setMandelbrotParams` (lines 584-591): unconditionally copy `params`
into the engine's `center`, `width`, `height`.  Note the source performs no
validation of any kind here. -/
def setMandelbrotParams (s : Ctrl) : Ctrl := { s with committed := s.params }

/-- `_repaint` (lines 541-545): cancel (awaited), re-commit the current
params, start a scan.  The returned flag records that `_scan()` was
invoked. -/
def repaint (s : Ctrl) : Ctrl × Bool := (setMandelbrotParams s, true)

/-- `_zoomIn` (lines 553-565): halve `params.width`/`params.height`, commit,
push the engine's (just-committed) region, scan. -/
def zoomIn (s : Ctrl) : Ctrl × Bool :=
  let s1 := setMandelbrotParams
    { s with params :=
        { s.params with width := s.params.width / 2, height := s.params.height / 2 } }
  ({ s1 with zoomChain := s1.committed :: s1.zoomChain }, true)

/-- `_zoomOut` (lines 568-580): a no-op when only the root entry remains;
otherwise pop, read the new top into `params`, commit, scan.  (The
constructor seeds `zoomChain` with the root view, so the stack is never
empty; the `none` branch below is unreachable from any constructed state and
keeps `params` unchanged.) -/
def zoomOut (s : Ctrl) : Ctrl × Bool :=
  if s.zoomChain.length = 1 then (s, false)
  else
    let chain := if 1 < s.zoomChain.length then s.zoomChain.tail else s.zoomChain
    match chain.head? with
    | some top => (setMandelbrotParams { s with params := top, zoomChain := chain }, true)
    | none => (setMandelbrotParams { s with zoomChain := chain }, true)

/-- The controller constructor (lines 303-353): `params` is copied from the
engine's current viewport and that same viewport seeds the zoom chain. -/
def mkCtrl (vp : Viewport) : Ctrl := ⟨vp, vp, [vp]⟩

/-- `n` consecutive zoom-in actions. -/
def zoomInN (n : ℕ) (s : Ctrl) : Ctrl := (fun t => (zoomIn t).1)^[n] s

/-- `n` consecutive zoom-out actions. -/
def zoomOutN (n : ℕ) (s : Ctrl) : Ctrl := (fun t => (zoomOut t).1)^[n] s

/-- Invariant of every reachable controller state: the top of the zoom chain
is the current `params` (in particular the chain is nonempty) and the
engine's committed viewport is `params`. -/
def ctrlInv (s : Ctrl) : Prop :=
  s.zoomChain.head? = some s.params ∧ s.committed = s.params

instance (s : Ctrl) : Decidable (ctrlInv s) := by
  unfold ctrlInv; infer_instance

end MandelbrotControls

namespace Mandelbrot

theorem getD_set_self {α : Type} (l : List α) (i : ℕ) (a d : α) (h : i < l.length) :
    (l.set i a).getD i d = a := by
  simp [List.getD_eq_getElem?_getD, List.getElem?_set_self, h]

theorem getD_set_ne {α : Type} (l : List α) {i j : ℕ} (a d : α) (h : i ≠ j) :
    (l.set i a).getD j d = l.getD j d := by
  simp [List.getD_eq_getElem?_getD, List.getElem?_set_ne h]

theorem getD_len_le {α : Type} (l : List α) {i : ℕ} (d : α) (h : l.length ≤ i) :
    l.getD i d = d := by
  simp [List.getD_eq_getElem?_getD, List.getElem?_eq_none h]

/-- At the origin the iterates stay identically zero: from a state with
`zr = zi = tr = ti = 0`, every pass of the loop keeps the `z` components zero
and the iteration count grows until it hits `maxN`. -/
theorem iterLoop_origin (maxN : ℕ) : ∀ (fuel n : ℕ) (a b : ℚ), n ≤ maxN →
    (iterLoop maxN 0 0 fuel ⟨0, 0, 0, 0, a, b, n⟩).zr = 0 ∧
    (iterLoop maxN 0 0 fuel ⟨0, 0, 0, 0, a, b, n⟩).zi = 0 ∧
    (iterLoop maxN 0 0 fuel ⟨0, 0, 0, 0, a, b, n⟩).tr = 0 ∧
    (iterLoop maxN 0 0 fuel ⟨0, 0, 0, 0, a, b, n⟩).ti = 0 ∧
    (iterLoop maxN 0 0 fuel ⟨0, 0, 0, 0, a, b, n⟩).n = min maxN (n + fuel) := by
  intro fuel
  induction fuel with
  | zero =>
    intro n a b hn
    refine ⟨rfl, rfl, rfl, rfl, ?_⟩
    simp only [iterLoop]
    omega
  | succ fuel ih =>
    intro n a b hn
    by_cases h : n < maxN
    · have hstep : iterStep 0 0 ⟨0, 0, 0, 0, a, b, n⟩ = ⟨0, 0, 0, 0, 1, 0, n + 1⟩ := by
        simp [iterStep]
      have hif : iterLoop maxN 0 0 (fuel + 1) ⟨0, 0, 0, 0, a, b, n⟩ =
          iterLoop maxN 0 0 fuel ⟨0, 0, 0, 0, 1, 0, n + 1⟩ := by
        rw [iterLoop, if_pos ⟨h, by norm_num⟩, hstep]
      rw [hif]
      have := ih (n + 1) 1 0 h
      exact ⟨this.1, this.2.1, this.2.2.1, this.2.2.2.1, by rw [this.2.2.2.2]; omega⟩
    · have hif : iterLoop maxN 0 0 (fuel + 1) ⟨0, 0, 0, 0, a, b, n⟩ =
          ⟨0, 0, 0, 0, a, b, n⟩ := by
        rw [iterLoop, if_neg]
        intro hc
        exact h hc.1
      rw [hif]
      refine ⟨rfl, rfl, rfl, rfl, ?_⟩
      show n = min maxN (n + (fuel + 1))
      omega

/-- The fuel given to `iterLoop` by `pixelIter` always suffices: the loop
exits because its guard fails, never because the fuel runs out. -/
theorem iterLoop_guard_exit (maxN : ℕ) (cr ci : ℚ) : ∀ (fuel : ℕ) (s : IterState),
    maxN ≤ s.n + fuel →
    ¬((iterLoop maxN cr ci fuel s).n < maxN ∧
      (iterLoop maxN cr ci fuel s).tr + (iterLoop maxN cr ci fuel s).ti ≤ 4) := by
  intro fuel
  induction fuel with
  | zero =>
    intro s hs hc
    simp only [iterLoop] at hc
    omega
  | succ fuel ih =>
    intro s hs
    by_cases h : s.n < maxN ∧ s.tr + s.ti ≤ 4
    · rw [iterLoop, if_pos h]
      exact ih (iterStep cr ci s) (by simp only [iterStep]; omega)
    · rw [iterLoop, if_neg h]
      exact h

/-- The checkered colour map returns pure white whenever
`iterationCount >= maxN` (the early return on line 205). -/
theorem colorCheckered_white (st : MState) (k : ℕ) (h : st.maxN ≤ st.ns.getD k 0) :
    colorCheckered st k = (255, 255, 255) := by
  rw [colorCheckered, if_pos h]

/-- Any state observation unaffected by a single reset step is unaffected by
the whole reset loop. -/
theorem resetLoop_pres {α : Type} (f : MState → α) (hf : ∀ st k, f (resetAt st k) = f st) :
    ∀ (n : ℕ) (st : MState), f (resetLoop st n) = f st := by
  intro n
  induction n with
  | zero => intro st; rfl
  | succ n ih =>
    intro st
    rw [resetLoop, hf, ih]

/-- After `resetLoop st n`, every index below `n` holds the reset values:
`ns = 0`, the three numeric fields `= 0`, and (within bounds) `pix = 1`. -/
theorem resetLoop_getD (st : MState) : ∀ (n idx : ℕ), idx < n →
    (resetLoop st n).ns.getD idx 0 = 0 ∧
    (resetLoop st n).finalang.getD idx 0 = 0 ∧
    (resetLoop st n).dist.getD idx 0 = 0 ∧
    (resetLoop st n).dwell.getD idx 0 = 0 ∧
    (idx < st.pix.length → (resetLoop st n).pix.getD idx 0 = 1) := by
  intro n
  induction n with
  | zero => intro idx h; omega
  | succ n ih =>
    intro idx h
    rw [resetLoop]
    by_cases he : idx = n
    · subst he
      have hpixlen : (resetLoop st idx).pix.length = st.pix.length :=
        resetLoop_pres (fun s => s.pix.length) (by simp [resetAt]) idx st
      have hval : ∀ (l : List ℝ), ((l.set idx 0).getD idx 0 : ℝ) = 0 := by
        intro l
        by_cases hl : idx < l.length
        · rw [getD_set_self _ _ _ _ hl]
        · rw [List.set_eq_of_length_le (by omega), getD_len_le _ _ (by omega)]
      have hns : ∀ (l : List ℕ), ((l.set idx 0).getD idx 0 : ℕ) = 0 := by
        intro l
        by_cases hl : idx < l.length
        · rw [getD_set_self _ _ _ _ hl]
        · rw [List.set_eq_of_length_le (by omega), getD_len_le _ _ (by omega)]
      refine ⟨hns _, hval _, hval _, hval _, ?_⟩
      intro hpix
      exact getD_set_self _ _ _ _ (by omega)
    · have hlt : idx < n := by omega
      obtain ⟨e1, e2, e3, e4, e5⟩ := ih idx hlt
      refine ⟨?_, ?_, ?_, ?_, ?_⟩
      · rw [resetAt]
        exact (getD_set_ne _ _ _ (fun hc => he hc.symm)).trans e1
      · rw [resetAt]
        exact (getD_set_ne _ _ _ (fun hc => he hc.symm)).trans e2
      · rw [resetAt]
        exact (getD_set_ne _ _ _ (fun hc => he hc.symm)).trans e3
      · rw [resetAt]
        exact (getD_set_ne _ _ _ (fun hc => he hc.symm)).trans e4
      · intro hpix
        rw [resetAt]
        exact (getD_set_ne _ _ _ (fun hc => he hc.symm)).trans (e5 hpix)

/-- Any state observation unaffected by a single pixel write is unaffected by
the column loop. -/
theorem scanCols_pres {α : Type} (f : MState → α)
    (hf : ∀ st k r, f (writePixel st k r) = f st) (cr : ℚ) :
    ∀ (cols : ℕ) (st : MState) (ci : ℚ) (k : ℕ), f (scanCols st cr ci k cols) = f st := by
  intro cols
  induction cols with
  | zero => intro st ci k; rfl
  | succ cols ih =>
    intro st ci k
    rw [scanCols, ih, hf]

/-- Characterisation of the column loop: indices in `[k, k+cols)` (within
bounds) receive the pixel record of their sample point `ci + (idx-k)*inc`;
every other record is untouched. -/
theorem scanCols_pixRec (cr : ℚ) : ∀ (cols : ℕ) (st : MState) (ci : ℚ) (k idx : ℕ),
    st.finalang.length = st.ns.length → st.dist.length = st.ns.length →
    st.dwell.length = st.ns.length →
    pixRec (scanCols st cr ci k cols) idx =
      (if k ≤ idx ∧ idx < k + cols ∧ idx < st.ns.length then
        iterRec (pixelIter st.maxN cr (ci + ((idx - k : ℕ) : ℚ) * st.inc))
      else pixRec st idx) := by
  intro cols
  induction cols with
  | zero =>
    intro st ci k idx h1 h2 h3
    rw [if_neg (by omega)]
    rfl
  | succ cols ih =>
    intro st ci k idx h1 h2 h3
    rw [scanCols]
    rw [ih (writePixel st k (pixelIter st.maxN cr ci)) (ci + st.inc) (k + 1) idx
      (by simp [writePixel, h1]) (by simp [writePixel, h2]) (by simp [writePixel, h3])]
    simp only [writePixel, List.length_set]
    by_cases hA : k + 1 ≤ idx ∧ idx < k + 1 + cols ∧ idx < st.ns.length
    · rw [if_pos hA, if_pos (by omega)]
      have harg : ci + st.inc + ((idx - (k + 1) : ℕ) : ℚ) * st.inc =
          ci + ((idx - k : ℕ) : ℚ) * st.inc := by
        have hsub : (idx - k : ℕ) = (idx - (k + 1)) + 1 := by omega
        rw [hsub]
        push_cast
        ring
      rw [harg]
    · rw [if_neg hA]
      by_cases hk : idx = k
      · subst hk
        by_cases hlen : idx < st.ns.length
        · rw [if_pos (by omega)]
          have harg : ci + ((idx - idx : ℕ) : ℚ) * st.inc = ci := by
            simp
          rw [harg]
          simp only [pixRec, iterRec, Prod.mk.injEq]
          refine ⟨?_, ?_, ?_, ?_⟩
          · exact getD_set_self _ _ _ _ hlen
          · exact getD_set_self _ _ _ _ (by omega)
          · exact getD_set_self _ _ _ _ (by omega)
          · exact getD_set_self _ _ _ _ (by omega)
        · rw [if_neg (by omega)]
          simp only [pixRec, Prod.mk.injEq]
          refine ⟨?_, ?_, ?_, ?_⟩
          · rw [List.set_eq_of_length_le (by omega)]
          · rw [List.set_eq_of_length_le (by omega)]
          · rw [List.set_eq_of_length_le (by omega)]
          · rw [List.set_eq_of_length_le (by omega)]
      · rw [if_neg (by omega)]
        simp only [pixRec, Prod.mk.injEq]
        have hne : k ≠ idx := fun h => hk h.symm
        refine ⟨?_, ?_, ?_, ?_⟩
        · exact getD_set_ne _ _ _ hne
        · exact getD_set_ne _ _ _ hne
        · exact getD_set_ne _ _ _ hne
        · exact getD_set_ne _ _ _ hne

/-- Any state observation unaffected by a single pixel write is unaffected by
the row loop. -/
theorem scanRows_pres {α : Type} (f : MState → α)
    (hf : ∀ st k r, f (writePixel st k r) = f st) (c : Option ℕ) (ciIni : ℚ) :
    ∀ (fuel : ℕ) (st : MState) (cr : ℚ) (i k : ℕ),
      f (scanRows st c ciIni cr i k fuel) = f st := by
  intro fuel
  induction fuel with
  | zero => intro st cr i k; rfl
  | succ fuel ih =>
    intro st cr i k
    rw [scanRows]
    by_cases h : flagAt c i
    · rw [if_pos h, ih, scanCols_pres f hf]
    · rw [if_neg h]

theorem scanCols_maxN (cr : ℚ) (cols : ℕ) (st : MState) (ci : ℚ) (k : ℕ) :
    (scanCols st cr ci k cols).maxN = st.maxN :=
  scanCols_pres (fun s => s.maxN) (fun _ _ _ => rfl) cr cols st ci k

theorem scanCols_inc (cr : ℚ) (cols : ℕ) (st : MState) (ci : ℚ) (k : ℕ) :
    (scanCols st cr ci k cols).inc = st.inc :=
  scanCols_pres (fun s => s.inc) (fun _ _ _ => rfl) cr cols st ci k

theorem scanCols_imgWidth (cr : ℚ) (cols : ℕ) (st : MState) (ci : ℚ) (k : ℕ) :
    (scanCols st cr ci k cols).imgWidth = st.imgWidth :=
  scanCols_pres (fun s => s.imgWidth) (fun _ _ _ => rfl) cr cols st ci k

theorem scanCols_ns_length (cr : ℚ) (cols : ℕ) (st : MState) (ci : ℚ) (k : ℕ) :
    (scanCols st cr ci k cols).ns.length = st.ns.length :=
  scanCols_pres (fun s => s.ns.length) (fun st' k' r => by simp [writePixel]) cr cols st ci k

theorem scanCols_finalang_length (cr : ℚ) (cols : ℕ) (st : MState) (ci : ℚ) (k : ℕ) :
    (scanCols st cr ci k cols).finalang.length = st.finalang.length :=
  scanCols_pres (fun s => s.finalang.length) (fun st' k' r => by simp [writePixel]) cr cols st ci k

theorem scanCols_dist_length (cr : ℚ) (cols : ℕ) (st : MState) (ci : ℚ) (k : ℕ) :
    (scanCols st cr ci k cols).dist.length = st.dist.length :=
  scanCols_pres (fun s => s.dist.length) (fun st' k' r => by simp [writePixel]) cr cols st ci k

theorem scanCols_dwell_length (cr : ℚ) (cols : ℕ) (st : MState) (ci : ℚ) (k : ℕ) :
    (scanCols st cr ci k cols).dwell.length = st.dwell.length :=
  scanCols_pres (fun s => s.dwell.length) (fun st' k' r => by simp [writePixel]) cr cols st ci k

/-- Characterisation of the uncancelled row loop starting at write index `k`:
indices in `[k, k + fuel*imgWidth)` (within bounds) receive the pixel record
of the sample at row offset `(idx-k)/imgWidth` and column `(idx-k)%imgWidth`;
every other record is untouched. -/
theorem scanRows_pixRec (ciIni : ℚ) : ∀ (fuel : ℕ) (st : MState) (cr : ℚ) (i k idx : ℕ),
    st.finalang.length = st.ns.length → st.dist.length = st.ns.length →
    st.dwell.length = st.ns.length →
    pixRec (scanRows st none ciIni cr i k fuel) idx =
      (if k ≤ idx ∧ idx < k + fuel * st.imgWidth ∧ idx < st.ns.length then
        iterRec (pixelIter st.maxN (cr + (((idx - k) / st.imgWidth : ℕ) : ℚ) * st.inc)
          (ciIni + (((idx - k) % st.imgWidth : ℕ) : ℚ) * st.inc))
      else pixRec st idx) := by
  intro fuel
  induction fuel with
  | zero =>
    intro st cr i k idx h1 h2 h3
    rw [if_neg (by omega)]
    rfl
  | succ fuel ih =>
    intro st cr i k idx h1 h2 h3
    have hfl : flagAt none i = true := rfl
    rw [scanRows, if_pos hfl]
    rw [ih (scanCols st cr ciIni k st.imgWidth) (cr + st.inc) (i + 1) (k + st.imgWidth) idx
      (by rw [scanCols_finalang_length, scanCols_ns_length]; exact h1)
      (by rw [scanCols_dist_length, scanCols_ns_length]; exact h2)
      (by rw [scanCols_dwell_length, scanCols_ns_length]; exact h3)]
    simp only [scanCols_maxN, scanCols_inc, scanCols_imgWidth, scanCols_ns_length]
    rw [scanCols_pixRec cr st.imgWidth st ciIni k idx h1 h2 h3]
    by_cases hA : k + st.imgWidth ≤ idx ∧ idx < k + st.imgWidth + fuel * st.imgWidth ∧
        idx < st.ns.length
    · have hw : 0 < st.imgWidth := by
        rcases Nat.eq_zero_or_pos st.imgWidth with h0 | h
        · rw [h0] at hA
          simp only [Nat.mul_zero] at hA
          omega
        · exact h
      rw [if_pos hA, if_pos (by rw [Nat.succ_mul]; omega)]
      have hd : st.imgWidth ≤ idx - k := by omega
      have hsub : idx - (k + st.imgWidth) = idx - k - st.imgWidth := by omega
      have harg1 : cr + st.inc + (((idx - (k + st.imgWidth)) / st.imgWidth : ℕ) : ℚ) * st.inc =
          cr + (((idx - k) / st.imgWidth : ℕ) : ℚ) * st.inc := by
        rw [hsub, Nat.div_eq_sub_div hw hd]
        push_cast
        ring
      have harg2 : ciIni + (((idx - (k + st.imgWidth)) % st.imgWidth : ℕ) : ℚ) * st.inc =
          ciIni + (((idx - k) % st.imgWidth : ℕ) : ℚ) * st.inc := by
        rw [hsub, Nat.mod_eq_sub_mod hd]
      rw [harg1, harg2]
    · rw [if_neg hA]
      by_cases hB : k ≤ idx ∧ idx < k + st.imgWidth ∧ idx < st.ns.length
      · rw [if_pos hB, if_pos (by rw [Nat.succ_mul]; omega)]
        have hlt : idx - k < st.imgWidth := by omega
        rw [Nat.div_eq_of_lt hlt, Nat.mod_eq_of_lt hlt]
        push_cast
        ring_nf
      · rw [if_neg hB, if_neg (by rw [Nat.succ_mul]; omega)]

/-- Cancellation truncates the row loop: with the flag first seen cleared at
boundary `m`, the loop behaves exactly like an uncancelled loop over the rows
up to `min fuel (m - i)`. -/
theorem scanRows_cancel (ciIni : ℚ) (m : ℕ) : ∀ (fuel : ℕ) (st : MState) (cr : ℚ) (i k : ℕ),
    scanRows st (some m) ciIni cr i k fuel =
      scanRows st none ciIni cr i k (min fuel (m - i)) := by
  intro fuel
  induction fuel with
  | zero =>
    intro st cr i k
    have h0 : min 0 (m - i) = 0 := by omega
    rw [h0]
    rfl
  | succ fuel ih =>
    intro st cr i k
    by_cases h : i < m
    · have hflag : flagAt (some m) i = true := by
        simp [flagAt, h]
      have hmin : min (fuel + 1) (m - i) = min fuel (m - (i + 1)) + 1 := by omega
      have hfl : flagAt none (i : ℕ) = true := rfl
      rw [scanRows, if_pos hflag, ih, hmin, scanRows, if_pos hfl]
    · have hflag : ¬(flagAt (some m) i = true) := by
        simp only [flagAt, decide_eq_true_eq]
        omega
      have hmin : min (fuel + 1) (m - i) = 0 := by omega
      rw [scanRows, if_neg hflag, hmin]
      rfl

theorem scanPrep_imgWidth (st : MState) : (scanPrep st).imgWidth = st.imgWidth := by
  simp only [scanPrep, resetDataStructs]
  exact resetLoop_pres (fun s => s.imgWidth) (fun _ _ => rfl) _ _

theorem scanPrep_imgHeight (st : MState) : (scanPrep st).imgHeight = st.imgHeight := by
  simp only [scanPrep, resetDataStructs]
  exact resetLoop_pres (fun s => s.imgHeight) (fun _ _ => rfl) _ _

theorem scanPrep_centerRe (st : MState) : (scanPrep st).centerRe = st.centerRe := by
  simp only [scanPrep, resetDataStructs]
  exact resetLoop_pres (fun s => s.centerRe) (fun _ _ => rfl) _ _

theorem scanPrep_centerIm (st : MState) : (scanPrep st).centerIm = st.centerIm := by
  simp only [scanPrep, resetDataStructs]
  exact resetLoop_pres (fun s => s.centerIm) (fun _ _ => rfl) _ _

theorem scanPrep_width (st : MState) : (scanPrep st).width = st.width := by
  simp only [scanPrep, resetDataStructs]
  exact resetLoop_pres (fun s => s.width) (fun _ _ => rfl) _ _

theorem scanPrep_height (st : MState) : (scanPrep st).height = st.height := by
  simp only [scanPrep, resetDataStructs]
  exact resetLoop_pres (fun s => s.height) (fun _ _ => rfl) _ _

theorem scanPrep_maxN (st : MState) : (scanPrep st).maxN = getMaxN st.width st.height := by
  simp only [scanPrep, resetDataStructs]
  rw [resetLoop_pres (fun s => s.width) (fun _ _ => rfl),
    resetLoop_pres (fun s => s.height) (fun _ _ => rfl)]

theorem scanPrep_inc (st : MState) : (scanPrep st).inc = st.width / (st.imgWidth : ℚ) := by
  simp only [scanPrep, resetDataStructs]
  rw [resetLoop_pres (fun s => s.width) (fun _ _ => rfl),
    resetLoop_pres (fun s => s.imgWidth) (fun _ _ => rfl)]

theorem scanPrep_ns_length (st : MState) : (scanPrep st).ns.length = st.ns.length := by
  simp only [scanPrep, resetDataStructs]
  exact resetLoop_pres (fun s => s.ns.length) (fun st' k => by simp [resetAt]) _ _

theorem scanPrep_finalang_length (st : MState) :
    (scanPrep st).finalang.length = st.finalang.length := by
  simp only [scanPrep, resetDataStructs]
  exact resetLoop_pres (fun s => s.finalang.length) (fun st' k => by simp [resetAt]) _ _

theorem scanPrep_dist_length (st : MState) : (scanPrep st).dist.length = st.dist.length := by
  simp only [scanPrep, resetDataStructs]
  exact resetLoop_pres (fun s => s.dist.length) (fun st' k => by simp [resetAt]) _ _

theorem scanPrep_dwell_length (st : MState) : (scanPrep st).dwell.length = st.dwell.length := by
  simp only [scanPrep, resetDataStructs]
  exact resetLoop_pres (fun s => s.dwell.length) (fun st' k => by simp [resetAt]) _ _

theorem scanPrep_pix_length (st : MState) : (scanPrep st).pix.length = st.pix.length := by
  simp only [scanPrep, resetDataStructs]
  exact resetLoop_pres (fun s => s.pix.length) (fun st' k => by simp [resetAt]) _ _

theorem wellSized_scanPrep (st : MState) (hs : wellSized st) : wellSized (scanPrep st) := by
  obtain ⟨e1, e2, e3, e4, e5⟩ := hs
  have hsz : imgSize (scanPrep st) = imgSize st := by
    simp only [imgSize, scanPrep_imgWidth, scanPrep_imgHeight]
  exact ⟨by rw [scanPrep_ns_length, hsz, e1], by rw [scanPrep_finalang_length, hsz, e2],
    by rw [scanPrep_dist_length, hsz, e3], by rw [scanPrep_dwell_length, hsz, e4],
    by rw [scanPrep_pix_length, hsz, e5]⟩

/-- At the start of every scan run — after `_scan`'s preamble, before any
pixel is computed — every per-pixel record holds the reset values. -/
theorem scanPrep_reset (st : MState) (hs : wellSized st) (idx : ℕ) (hidx : idx < imgSize st) :
    (scanPrep st).ns.getD idx 0 = 0 ∧ (scanPrep st).finalang.getD idx 0 = 0 ∧
    (scanPrep st).dist.getD idx 0 = 0 ∧ (scanPrep st).dwell.getD idx 0 = 0 ∧
    (scanPrep st).pix.getD idx 0 = 1 := by
  obtain ⟨e1, e2, e3, e4, e5⟩ := hs
  simp only [scanPrep, resetDataStructs]
  have h := resetLoop_getD { st with scanning := true, scanLoop := true, scanDone := false }
    (imgSize { st with scanning := true, scanLoop := true, scanDone := false }) idx hidx
  exact ⟨h.1, h.2.1, h.2.2.1, h.2.2.2.1, h.2.2.2.2 (by simpa [imgSize] using e5 ▸ hidx)⟩

theorem scanRows_ns_length (c : Option ℕ) (ciIni cr : ℚ) (fuel : ℕ) (st : MState) (i k : ℕ) :
    (scanRows st c ciIni cr i k fuel).ns.length = st.ns.length :=
  scanRows_pres (fun s => s.ns.length) (fun st' k' r => by simp [writePixel]) c ciIni fuel st cr i k

theorem scanRows_finalang_length (c : Option ℕ) (ciIni cr : ℚ) (fuel : ℕ) (st : MState)
    (i k : ℕ) : (scanRows st c ciIni cr i k fuel).finalang.length = st.finalang.length :=
  scanRows_pres (fun s => s.finalang.length) (fun st' k' r => by simp [writePixel]) c ciIni fuel
    st cr i k

theorem scanRows_dist_length (c : Option ℕ) (ciIni cr : ℚ) (fuel : ℕ) (st : MState) (i k : ℕ) :
    (scanRows st c ciIni cr i k fuel).dist.length = st.dist.length :=
  scanRows_pres (fun s => s.dist.length) (fun st' k' r => by simp [writePixel]) c ciIni fuel
    st cr i k

theorem scanRows_dwell_length (c : Option ℕ) (ciIni cr : ℚ) (fuel : ℕ) (st : MState) (i k : ℕ) :
    (scanRows st c ciIni cr i k fuel).dwell.length = st.dwell.length :=
  scanRows_pres (fun s => s.dwell.length) (fun st' k' r => by simp [writePixel]) c ciIni fuel
    st cr i k

theorem scanRows_pix (c : Option ℕ) (ciIni cr : ℚ) (fuel : ℕ) (st : MState) (i k : ℕ) :
    (scanRows st c ciIni cr i k fuel).pix = st.pix :=
  scanRows_pres (fun s => s.pix) (fun _ _ _ => rfl) c ciIni fuel st cr i k

theorem scanRows_imgWidth (c : Option ℕ) (ciIni cr : ℚ) (fuel : ℕ) (st : MState) (i k : ℕ) :
    (scanRows st c ciIni cr i k fuel).imgWidth = st.imgWidth :=
  scanRows_pres (fun s => s.imgWidth) (fun _ _ _ => rfl) c ciIni fuel st cr i k

theorem scanRows_imgHeight (c : Option ℕ) (ciIni cr : ℚ) (fuel : ℕ) (st : MState) (i k : ℕ) :
    (scanRows st c ciIni cr i k fuel).imgHeight = st.imgHeight :=
  scanRows_pres (fun s => s.imgHeight) (fun _ _ _ => rfl) c ciIni fuel st cr i k

/-- The state returned by `_scan` is the row sweep applied to the prepared
state, with the run flags updated on exit (lines 160-161). -/
theorem scanRun_fst_eq (st : MState) (c : Option ℕ) :
    (scanRun st c).1 =
      { scanRows (scanPrep st) c
          ((scanPrep st).centerIm - (scanPrep st).width / 2 + (scanPrep st).inc / 2)
          ((scanPrep st).centerRe - (scanPrep st).height / 2 + (scanPrep st).inc / 2)
          0 0 (scanPrep st).imgHeight with
        scanning := false, scanLoop := flagAt c (scanPrep st).imgHeight } := rfl

/-- The promise resolves to the cancellation flag's value as observed when
the row loop exits. -/
theorem scanRun_outcome (st : MState) (c : Option ℕ) :
    (scanRun st c).2 = flagAt c st.imgHeight := by
  show flagAt c (scanPrep st).imgHeight = _
  rw [scanPrep_imgHeight]

theorem wellSized_scanRun (st : MState) (c : Option ℕ) (hs : wellSized st) :
    wellSized (scanRun st c).1 := by
  obtain ⟨p1, p2, p3, p4, p5⟩ := wellSized_scanPrep st hs
  rw [scanRun_fst_eq]
  refine ⟨?_, ?_, ?_, ?_, ?_⟩
  · simp only [imgSize, scanRows_ns_length, scanRows_imgWidth, scanRows_imgHeight]
    exact p1
  · simp only [imgSize, scanRows_finalang_length, scanRows_imgWidth, scanRows_imgHeight]
    exact p2
  · simp only [imgSize, scanRows_dist_length, scanRows_imgWidth, scanRows_imgHeight]
    exact p3
  · simp only [imgSize, scanRows_dwell_length, scanRows_imgWidth, scanRows_imgHeight]
    exact p4
  · simp only [imgSize, scanRows_pix, scanRows_imgWidth, scanRows_imgHeight]
    exact p5

/-- An uncancelled scan writes into every pixel record the escape-loop result
of the sample point described by the closed-form row/column coordinates. -/
theorem scanRun_none_pixRec (st : MState) (hs : wellSized st) (idx : ℕ)
    (hidx : idx < imgSize st) :
    pixRec (scanRun st none).1 idx =
      iterRec (pixelIter (getMaxN st.width st.height)
        (crAt st (idx / st.imgWidth)) (ciAt st (idx % st.imgWidth))) := by
  have hw : 0 < st.imgWidth := by
    rcases Nat.eq_zero_or_pos st.imgWidth with h0 | h
    · exfalso
      simp only [imgSize, h0, Nat.zero_mul] at hidx
      omega
    · exact h
  obtain ⟨p1, p2, p3, p4, p5⟩ := wellSized_scanPrep st hs
  have hrows : pixRec (scanRun st none).1 idx =
      pixRec (scanRows (scanPrep st) none
        ((scanPrep st).centerIm - (scanPrep st).width / 2 + (scanPrep st).inc / 2)
        ((scanPrep st).centerRe - (scanPrep st).height / 2 + (scanPrep st).inc / 2)
        0 0 (scanPrep st).imgHeight) idx := by
    rw [scanRun_fst_eq]
    rfl
  rw [hrows]
  rw [scanRows_pixRec _ _ _ _ _ _ _ (by rw [p2, p1]) (by rw [p3, p1]) (by rw [p4, p1])]
  have hszcomm : st.imgHeight * st.imgWidth = imgSize st := by
    rw [imgSize, Nat.mul_comm]
  rw [if_pos (by
    refine ⟨Nat.zero_le idx, ?_, ?_⟩
    · rw [scanPrep_imgHeight, scanPrep_imgWidth, hszcomm]
      omega
    · rw [p1]
      simp only [imgSize, scanPrep_imgWidth, scanPrep_imgHeight]
      exact hidx)]
  simp only [scanPrep_maxN, scanPrep_inc, scanPrep_imgWidth, scanPrep_centerRe,
    scanPrep_centerIm, scanPrep_width, scanPrep_height, Nat.sub_zero]
  have hb : st.centerRe - st.height / 2 + st.width / (st.imgWidth : ℚ) / 2 +
      ((idx / st.imgWidth : ℕ) : ℚ) * (st.width / (st.imgWidth : ℚ)) =
      crAt st (idx / st.imgWidth) := by
    rw [crAt]
    ring
  have hc : st.centerIm - st.width / 2 + st.width / (st.imgWidth : ℚ) / 2 +
      ((idx % st.imgWidth : ℕ) : ℚ) * (st.width / (st.imgWidth : ℚ)) =
      ciAt st (idx % st.imgWidth) := by
    rw [ciAt]
    ring
  rw [hb, hc]

/-- A scan cancelled at row boundary `m` writes exactly the rows below `m`
and leaves every later record at its reset value. -/
theorem scanRun_some_pixRec (st : MState) (m : ℕ) (hs : wellSized st) (idx : ℕ)
    (hidx : idx < imgSize st) :
    pixRec (scanRun st (some m)).1 idx =
      (if idx / st.imgWidth < m then
        iterRec (pixelIter (getMaxN st.width st.height)
          (crAt st (idx / st.imgWidth)) (ciAt st (idx % st.imgWidth)))
      else pixRec (scanPrep st) idx) := by
  have hw : 0 < st.imgWidth := by
    rcases Nat.eq_zero_or_pos st.imgWidth with h0 | h
    · exfalso
      simp only [imgSize, h0, Nat.zero_mul] at hidx
      omega
    · exact h
  obtain ⟨p1, p2, p3, p4, p5⟩ := wellSized_scanPrep st hs
  have hrows : pixRec (scanRun st (some m)).1 idx =
      pixRec (scanRows (scanPrep st) none
        ((scanPrep st).centerIm - (scanPrep st).width / 2 + (scanPrep st).inc / 2)
        ((scanPrep st).centerRe - (scanPrep st).height / 2 + (scanPrep st).inc / 2)
        0 0 (min ((scanPrep st).imgHeight) m)) idx := by
    rw [scanRun_fst_eq]
    show pixRec (scanRows (scanPrep st) (some m) _ _ 0 0 (scanPrep st).imgHeight) idx = _
    rw [scanRows_cancel]
    rfl
  rw [hrows]
  rw [scanRows_pixRec _ _ _ _ _ _ _ (by rw [p2, p1]) (by rw [p3, p1]) (by rw [p4, p1])]
  have hdivlt : idx / st.imgWidth < st.imgHeight := by
    rw [Nat.div_lt_iff_lt_mul hw]
    rw [imgSize, Nat.mul_comm] at hidx
    exact hidx
  by_cases hm : idx / st.imgWidth < m
  · rw [if_pos hm]
    rw [if_pos (by
      refine ⟨Nat.zero_le idx, ?_, ?_⟩
      · rw [scanPrep_imgHeight, scanPrep_imgWidth]
        have hmin : idx / st.imgWidth < min st.imgHeight m := by omega
        rw [Nat.div_lt_iff_lt_mul hw] at hmin
        omega
      · rw [p1]
        simp only [imgSize, scanPrep_imgWidth, scanPrep_imgHeight]
        exact hidx)]
    simp only [scanPrep_maxN, scanPrep_inc, scanPrep_imgWidth, scanPrep_centerRe,
      scanPrep_centerIm, scanPrep_width, scanPrep_height, Nat.sub_zero]
    have hb : st.centerRe - st.height / 2 + st.width / (st.imgWidth : ℚ) / 2 +
        ((idx / st.imgWidth : ℕ) : ℚ) * (st.width / (st.imgWidth : ℚ)) =
        crAt st (idx / st.imgWidth) := by
      rw [crAt]
      ring
    have hc : st.centerIm - st.width / 2 + st.width / (st.imgWidth : ℚ) / 2 +
        ((idx % st.imgWidth : ℕ) : ℚ) * (st.width / (st.imgWidth : ℚ)) =
        ciAt st (idx % st.imgWidth) := by
      rw [ciAt]
      ring
    rw [hb, hc]
  · rw [if_neg hm]
    rw [if_neg (by
      rw [scanPrep_imgHeight, scanPrep_imgWidth]
      intro hcon
      obtain ⟨hc1, hc2, hc3⟩ := hcon
      have : idx / st.imgWidth < min st.imgHeight m := by
        rw [Nat.div_lt_iff_lt_mul hw]
        omega
      omega)]

theorem wellSized_resetDataStructs (st : MState) (hs : wellSized st) :
    wellSized (resetDataStructs st) := by
  obtain ⟨e1, e2, e3, e4, e5⟩ := hs
  have hsz : imgSize (resetDataStructs st) = imgSize st := by
    simp only [resetDataStructs, imgSize]
    rw [resetLoop_pres (fun s => s.imgWidth) (fun _ _ => rfl),
      resetLoop_pres (fun s => s.imgHeight) (fun _ _ => rfl)]
  refine ⟨?_, ?_, ?_, ?_, ?_⟩
  · rw [hsz]
    simp only [resetDataStructs]
    rw [resetLoop_pres (fun s => s.ns.length) (fun st' k => by simp [resetAt])]
    exact e1
  · rw [hsz]
    simp only [resetDataStructs]
    rw [resetLoop_pres (fun s => s.finalang.length) (fun st' k => by simp [resetAt])]
    exact e2
  · rw [hsz]
    simp only [resetDataStructs]
    rw [resetLoop_pres (fun s => s.dist.length) (fun st' k => by simp [resetAt])]
    exact e3
  · rw [hsz]
    simp only [resetDataStructs]
    rw [resetLoop_pres (fun s => s.dwell.length) (fun st' k => by simp [resetAt])]
    exact e4
  · rw [hsz]
    simp only [resetDataStructs]
    rw [resetLoop_pres (fun s => s.pix.length) (fun st' k => by simp [resetAt])]
    exact e5

/-- The checkered colour of a pixel depends only on `maxN`, `inc` and the
four scan-written arrays. -/
theorem colorCheckered_congr (st st' : MState) (k : ℕ) (hns : st'.ns = st.ns)
    (hdw : st'.dwell = st.dwell) (hdi : st'.dist = st.dist) (hfa : st'.finalang = st.finalang)
    (hinc : st'.inc = st.inc) (hmax : st'.maxN = st.maxN) :
    colorCheckered st' k = colorCheckered st k := by
  simp only [colorCheckered, hns, hdw, hdi, hfa, hinc, hmax]

/-- The colour returned by `_color` does not depend on `pix`, `image` or the
run flags. -/
theorem colorPixel_snd_congr (st st' : MState) (k : ℕ) (hns : st'.ns = st.ns)
    (hdw : st'.dwell = st.dwell) (hdi : st'.dist = st.dist) (hfa : st'.finalang = st.finalang)
    (hinc : st'.inc = st.inc) (hmax : st'.maxN = st.maxN)
    (hcid : st'.colorFuncId = st.colorFuncId) :
    (colorPixel st' k).2 = (colorPixel st k).2 := by
  have hbw : colorCheckeredBlackAndWhite st' k = colorCheckeredBlackAndWhite st k := by
    simp only [colorCheckeredBlackAndWhite, colorCheckered_congr st st' k hns hdw hdi hfa
      hinc hmax]
  by_cases h : st.ns.getD k 0 = 0
  · rw [colorPixel, colorPixel, if_pos h, if_pos (by rw [hns]; exact h)]
  · rw [colorPixel, colorPixel, if_neg h, if_neg (by rw [hns]; exact h)]
    show colorFuncOf st' k = colorFuncOf st k
    rw [colorFuncOf, colorFuncOf, hcid]
    split_ifs with h1 h2
    · exact colorCheckered_congr st st' k hns hdw hdi hfa hinc hmax
    · exact hbw
    · exact colorCheckered_congr st st' k hns hdw hdi hfa hinc hmax

/-- Any state observation unaffected by `_color` and by image writes is
unaffected by the render loop. -/
theorem renderPixels_pres {α : Type} (f : MState → α)
    (hcolor : ∀ (st : MState) (k : ℕ), f (colorPixel st k).1 = f st)
    (himg : ∀ (st : MState) (img : List (ℝ × ℝ × ℝ)), f { st with image := img } = f st) :
    ∀ (n : ℕ) (st : MState), f (renderPixels st n) = f st := by
  intro n
  induction n with
  | zero => intro st; rfl
  | succ n ih =>
    intro st
    simp only [renderPixels]
    by_cases h : (renderPixels st n).pix.getD n 0 ≠ 0
    · rw [if_pos h, himg, hcolor, ih]
    · rw [if_neg h, ih]

theorem renderPixels_image_length (st : MState) :
    ∀ n : ℕ, (renderPixels st n).image.length = st.image.length := by
  intro n
  induction n with
  | zero => rfl
  | succ n ih =>
    simp only [renderPixels]
    by_cases h : (renderPixels st n).pix.getD n 0 ≠ 0
    · rw [if_pos h]
      show ((colorPixel (renderPixels st n) n).1.image.set n _).length = _
      rw [List.length_set]
      have himg : (colorPixel (renderPixels st n) n).1.image = (renderPixels st n).image := by
        rw [colorPixel]
        split_ifs <;> rfl
      rw [himg, ih]
    · rw [if_neg h, ih]

/-- The render loop leaves a pixel's `needsColor` flag untouched exactly when
that pixel is still uncomputed (`ns = 0`); it clears the flag of every
processed pixel that holds scan data. -/
theorem renderPixels_pix (st : MState) : ∀ (n idx : ℕ),
    (renderPixels st n).pix.getD idx 0 =
      (if idx < n ∧ st.ns.getD idx 0 ≠ 0 then 0 else st.pix.getD idx 0) := by
  intro n
  induction n with
  | zero =>
    intro idx
    rw [if_neg (by omega)]
    rfl
  | succ n ih =>
    intro idx
    have hns : (renderPixels st n).ns = st.ns :=
      renderPixels_pres (fun s => s.ns)
        (fun st' k => by rw [colorPixel]; split_ifs <;> rfl) (fun _ _ => rfl) n st
    have hpixlen : (renderPixels st n).pix.length = st.pix.length :=
      renderPixels_pres (fun s => s.pix.length)
        (fun st' k => by rw [colorPixel]; split_ifs <;> simp) (fun _ _ => rfl) n st
    simp only [renderPixels]
    by_cases hb : (renderPixels st n).pix.getD n 0 ≠ 0
    · rw [if_pos hb]
      by_cases hn0 : st.ns.getD n 0 = 0
      · have hfst : (colorPixel (renderPixels st n) n).1 = renderPixels st n := by
          rw [colorPixel, if_pos (by rw [hns]; exact hn0)]
        show ((colorPixel (renderPixels st n) n).1.pix).getD idx 0 = _
        rw [hfst, ih]
        by_cases hi : idx = n
        · subst hi
          rw [if_neg (by tauto), if_neg (by tauto)]
        · by_cases hc : idx < n ∧ st.ns.getD idx 0 ≠ 0
          · rw [if_pos hc, if_pos ⟨by omega, hc.2⟩]
          · rw [if_neg hc, if_neg (by
              intro hcon
              exact hc ⟨by omega, hcon.2⟩)]
      · have hfst : (colorPixel (renderPixels st n) n).1.pix =
            (renderPixels st n).pix.set n 0 := by
          rw [colorPixel, if_neg (by rw [hns]; exact hn0)]
        show ((colorPixel (renderPixels st n) n).1.pix).getD idx 0 = _
        rw [hfst]
        by_cases hi : idx = n
        · subst hi
          by_cases hl : idx < st.pix.length
          · rw [getD_set_self _ _ _ _ (by omega), if_pos ⟨by omega, hn0⟩]
          · rw [List.set_eq_of_length_le (by omega), ih, if_neg (by omega),
              if_pos ⟨by omega, hn0⟩]
            exact getD_len_le _ _ (by omega)
        · rw [getD_set_ne _ _ _ (fun hc => hi hc.symm), ih]
          by_cases hc : idx < n ∧ st.ns.getD idx 0 ≠ 0
          · rw [if_pos hc, if_pos ⟨by omega, hc.2⟩]
          · rw [if_neg hc, if_neg (by
              intro hcon
              exact hc ⟨by omega, hcon.2⟩)]
    · rw [if_neg hb, ih]
      rw [ih] at hb
      by_cases hi : idx = n
      · subst hi
        rw [if_neg (by omega)] at hb
        push_neg at hb
        rw [if_neg (by omega), hb]
        split_ifs <;> rfl
      · by_cases hc : idx < n ∧ st.ns.getD idx 0 ≠ 0
        · rw [if_pos hc, if_pos ⟨by omega, hc.2⟩]
        · rw [if_neg hc, if_neg (by
            intro hcon
            exact hc ⟨by omega, hcon.2⟩)]

/-- The render loop writes into the image buffer, at every processed index
whose `needsColor` flag was set, exactly the colour `_color` assigns to that
pixel in the pre-render state; all other image entries are untouched. -/
theorem renderPixels_image (st : MState) : ∀ (n idx : ℕ) (d : ℝ × ℝ × ℝ),
    (renderPixels st n).image.getD idx d =
      (if idx < n ∧ st.pix.getD idx 0 ≠ 0 ∧ idx < st.image.length then (colorPixel st idx).2
      else st.image.getD idx d) := by
  intro n
  induction n with
  | zero =>
    intro idx d
    rw [if_neg (by omega)]
    rfl
  | succ n ih =>
    intro idx d
    have hcongr : (colorPixel (renderPixels st n) n).2 = (colorPixel st n).2 :=
      colorPixel_snd_congr st (renderPixels st n) n
        (renderPixels_pres (fun s => s.ns)
          (fun st' k => by rw [colorPixel]; split_ifs <;> rfl) (fun _ _ => rfl) n st)
        (renderPixels_pres (fun s => s.dwell)
          (fun st' k => by rw [colorPixel]; split_ifs <;> rfl) (fun _ _ => rfl) n st)
        (renderPixels_pres (fun s => s.dist)
          (fun st' k => by rw [colorPixel]; split_ifs <;> rfl) (fun _ _ => rfl) n st)
        (renderPixels_pres (fun s => s.finalang)
          (fun st' k => by rw [colorPixel]; split_ifs <;> rfl) (fun _ _ => rfl) n st)
        (renderPixels_pres (fun s => s.inc)
          (fun st' k => by rw [colorPixel]; split_ifs <;> rfl) (fun _ _ => rfl) n st)
        (renderPixels_pres (fun s => s.maxN)
          (fun st' k => by rw [colorPixel]; split_ifs <;> rfl) (fun _ _ => rfl) n st)
        (renderPixels_pres (fun s => s.colorFuncId)
          (fun st' k => by rw [colorPixel]; split_ifs <;> rfl) (fun _ _ => rfl) n st)
    simp only [renderPixels]
    by_cases hb : (renderPixels st n).pix.getD n 0 ≠ 0
    · rw [if_pos hb]
      have himg : (colorPixel (renderPixels st n) n).1.image = (renderPixels st n).image := by
        rw [colorPixel]
        split_ifs <;> rfl
      show ((colorPixel (renderPixels st n) n).1.image.set n
        (colorPixel (renderPixels st n) n).2).getD idx d = _
      rw [himg, hcongr]
      rw [renderPixels_pix] at hb
      rw [if_neg (by omega)] at hb
      by_cases hi : idx = n
      · subst hi
        by_cases hl : idx < st.image.length
        · rw [getD_set_self _ _ _ _ (by rw [renderPixels_image_length]; exact hl),
            if_pos ⟨by omega, hb, hl⟩]
        · rw [List.set_eq_of_length_le (by rw [renderPixels_image_length]; omega), ih,
            if_neg (by omega), if_neg (by
              intro hcon
              exact hl hcon.2.2)]
      · rw [getD_set_ne _ _ _ (fun hc => hi hc.symm), ih]
        by_cases hc : idx < n ∧ st.pix.getD idx 0 ≠ 0 ∧ idx < st.image.length
        · rw [if_pos hc, if_pos ⟨by omega, hc.2⟩]
        · rw [if_neg hc, if_neg (by
            intro hcon
            exact hc ⟨by omega, hcon.2⟩)]
    · rw [if_neg hb, ih]
      rw [renderPixels_pix, if_neg (by omega)] at hb
      push_neg at hb
      by_cases hi : idx = n
      · subst hi
        rw [if_neg (by omega), if_neg (by
          intro hcon
          exact hcon.2.1 hb)]
      · by_cases hc : idx < n ∧ st.pix.getD idx 0 ≠ 0 ∧ idx < st.image.length
        · rw [if_pos hc, if_pos ⟨by omega, hc.2⟩]
        · rw [if_neg hc, if_neg (by
            intro hcon
            exact hc ⟨by omega, hcon.2⟩)]

end Mandelbrot

namespace MandelbrotControls

/-- Zooming in preserves the controller invariant (the pushed region is the
newly committed `params`). -/
theorem ctrlInv_zoomIn (s : Ctrl) : ctrlInv (zoomIn s).1 := by
  simp [ctrlInv, zoomIn, setMandelbrotParams]

/-- On any state satisfying the invariant, a zoom-out exactly undoes a
zoom-in. -/
theorem zoomOut_zoomIn (s : Ctrl) (h : ctrlInv s) : (zoomOut (zoomIn s).1).1 = s := by
  obtain ⟨p, c, chain⟩ := s
  obtain ⟨h1, h2⟩ := h
  simp only at h1 h2
  subst h2
  cases chain with
  | nil => simp at h1
  | cons top rest =>
    simp only [List.head?_cons, Option.some.injEq] at h1
    subst h1
    simp only [zoomIn, setMandelbrotParams, zoomOut, List.length_cons]
    rw [if_neg (by omega)]
    rw [if_pos (by omega)]
    simp

/-- `n` zoom-ins followed by `n` zoom-outs restore the controller state
exactly. -/
theorem zoomOutN_zoomInN (n : ℕ) : ∀ s : Ctrl, ctrlInv s → zoomOutN n (zoomInN n s) = s := by
  induction n with
  | zero => intro s _; rfl
  | succ n ih =>
    intro s h
    rw [zoomInN, Function.iterate_succ_apply, ← zoomInN]
    rw [zoomOutN, Function.iterate_succ_apply', ← zoomOutN]
    rw [ih _ (ctrlInv_zoomIn s)]
    exact zoomOut_zoomIn s h

end MandelbrotControls

/-- C3: from any controller state satisfying the reachable-state invariant
(top of the zoom chain = current params = committed viewport), `n` zoom-ins
followed by `n` zoom-outs restore the committed viewport; a zoom-out when
only the root entry remains is a complete no-op (no pop, no commit, no scan);
each zoom-in halves width and height, keeps the centre, and pushes the new
region onto the chain. -/
theorem claim_C3_zoom_chain_undo (s : MandelbrotControls.Ctrl) (n : ℕ)
    (hinv : MandelbrotControls.ctrlInv s) (hn : 1 ≤ n) :
    (MandelbrotControls.zoomOutN n (MandelbrotControls.zoomInN n s)).committed = s.committed ∧
    (s.zoomChain.length = 1 → MandelbrotControls.zoomOut s = (s, false)) ∧
    (MandelbrotControls.zoomIn s).1.params.width = s.params.width / 2 ∧
    (MandelbrotControls.zoomIn s).1.params.height = s.params.height / 2 ∧
    (MandelbrotControls.zoomIn s).1.params.centerRe = s.params.centerRe ∧
    (MandelbrotControls.zoomIn s).1.params.centerIm = s.params.centerIm ∧
    (MandelbrotControls.zoomIn s).1.zoomChain = (MandelbrotControls.zoomIn s).1.params ::
      s.zoomChain := by
  refine ⟨?_, ?_, ?_, ?_, ?_, ?_, ?_⟩
  · rw [MandelbrotControls.zoomOutN_zoomInN n s hinv]
  · intro hlen
    rw [MandelbrotControls.zoomOut, if_pos hlen]
  · simp [MandelbrotControls.zoomIn, MandelbrotControls.setMandelbrotParams]
  · simp [MandelbrotControls.zoomIn, MandelbrotControls.setMandelbrotParams]
  · simp [MandelbrotControls.zoomIn, MandelbrotControls.setMandelbrotParams]
  · simp [MandelbrotControls.zoomIn, MandelbrotControls.setMandelbrotParams]
  · simp [MandelbrotControls.zoomIn, MandelbrotControls.setMandelbrotParams]

/-- Witness for C3 at the root controller state for the default view and
`n = 1`. -/
theorem claim_C3_witness :
    MandelbrotControls.ctrlInv (MandelbrotControls.mkCtrl ⟨0, 0, 4, 4⟩) ∧ 1 ≤ 1 ∧
      (MandelbrotControls.zoomOutN 1 (MandelbrotControls.zoomInN 1
        (MandelbrotControls.mkCtrl ⟨0, 0, 4, 4⟩))).committed =
        (MandelbrotControls.mkCtrl ⟨0, 0, 4, 4⟩).committed :=
  ⟨⟨rfl, rfl⟩, le_refl 1,
    (claim_C3_zoom_chain_undo (MandelbrotControls.mkCtrl ⟨0, 0, 4, 4⟩) 1 ⟨rfl, rfl⟩
      (le_refl 1)).1⟩

/-- C4 counterexample: the navigation controller performs no viewport
validation.  Committing a candidate viewport of width and height `-1` via
repaint succeeds: the engine's viewport becomes the non-positive region and a
scan is started on it, contradicting the claimed `InvalidRegion` rejection. -/
theorem claim_C4_counterexample :
    (MandelbrotControls.repaint
        ⟨⟨0, 0, -1, -1⟩, ⟨0, 0, 4, 4⟩, [⟨0, 0, 4, 4⟩]⟩).1.committed = ⟨0, 0, -1, -1⟩ ∧
    (MandelbrotControls.repaint
        ⟨⟨0, 0, -1, -1⟩, ⟨0, 0, 4, 4⟩, [⟨0, 0, 4, 4⟩]⟩).1.committed.width ≤ 0 ∧
    (MandelbrotControls.repaint
        ⟨⟨0, 0, -1, -1⟩, ⟨0, 0, 4, 4⟩, [⟨0, 0, 4, 4⟩]⟩).2 = true :=
  ⟨rfl, by norm_num [MandelbrotControls.repaint, MandelbrotControls.setMandelbrotParams], rfl⟩

/-- C4 (amended): `_setMandelbrotParams` performs no validation whatsoever —
a viewport with non-positive width or height is committed to the engine
unchanged and the scan is started on it; no `InvalidRegion` failure path
exists in the code. -/
theorem claim_C4_no_validation (s : MandelbrotControls.Ctrl)
    (h : s.params.width ≤ 0 ∨ s.params.height ≤ 0) :
    (MandelbrotControls.repaint s).1.committed = s.params ∧
      (MandelbrotControls.repaint s).2 = true :=
  ⟨rfl, rfl⟩

/-- Witness for the amended C4 at a width/height `-1` candidate viewport. -/
theorem claim_C4_witness :
    ((⟨⟨0, 0, -1, -1⟩, ⟨0, 0, 4, 4⟩, [⟨0, 0, 4, 4⟩]⟩ :
        MandelbrotControls.Ctrl).params.width ≤ 0 ∨
      (⟨⟨0, 0, -1, -1⟩, ⟨0, 0, 4, 4⟩, [⟨0, 0, 4, 4⟩]⟩ :
        MandelbrotControls.Ctrl).params.height ≤ 0) ∧
    ((MandelbrotControls.repaint
        ⟨⟨0, 0, -1, -1⟩, ⟨0, 0, 4, 4⟩, [⟨0, 0, 4, 4⟩]⟩).1.committed =
      (⟨⟨0, 0, -1, -1⟩, ⟨0, 0, 4, 4⟩, [⟨0, 0, 4, 4⟩]⟩ :
        MandelbrotControls.Ctrl).params ∧
      (MandelbrotControls.repaint
        ⟨⟨0, 0, -1, -1⟩, ⟨0, 0, 4, 4⟩, [⟨0, 0, 4, 4⟩]⟩).2 = true) :=
  ⟨Or.inl (by norm_num), claim_C4_no_validation _ (Or.inl (by norm_num))⟩

set_option maxHeartbeats 1000000 in
/-- C5: the iteration-limit policy is a total function of `(width, height)`
keyed on `minDim = min width height`, monotonically non-increasing in
`minDim`; at each of the thresholds `0.4, 0.04, …, 0.000004` the value steps
through `250, 1000, 2500, 5000, 10000, 25000, 50000` (the comparison being
strict, the value at the threshold itself already belongs to the next
step). -/
theorem claim_C5_maxIterations_policy (w1 h1 w2 h2 : ℚ) (hw1 : 0 < w1) (hh1 : 0 < h1)
    (hw2 : 0 < w2) (hh2 : 0 < h2) (hle : min w1 h1 ≤ min w2 h2) :
    Mandelbrot.getMaxN w2 h2 ≤ Mandelbrot.getMaxN w1 h1 ∧
    Mandelbrot.getMaxN 1 1 = 250 ∧
    Mandelbrot.getMaxN (4 / 10) (4 / 10) = 1000 ∧
    Mandelbrot.getMaxN (4 / 100) (4 / 100) = 2500 ∧
    Mandelbrot.getMaxN (4 / 1000) (4 / 1000) = 5000 ∧
    Mandelbrot.getMaxN (4 / 10000) (4 / 10000) = 10000 ∧
    Mandelbrot.getMaxN (4 / 100000) (4 / 100000) = 25000 ∧
    Mandelbrot.getMaxN (4 / 1000000) (4 / 1000000) = 50000 := by
  refine ⟨?_, by norm_num [Mandelbrot.getMaxN], by norm_num [Mandelbrot.getMaxN],
    by norm_num [Mandelbrot.getMaxN], by norm_num [Mandelbrot.getMaxN],
    by norm_num [Mandelbrot.getMaxN], by norm_num [Mandelbrot.getMaxN],
    by norm_num [Mandelbrot.getMaxN]⟩
  simp only [Mandelbrot.getMaxN]
  generalize hd1 : min w1 h1 = d1 at hle
  generalize hd2 : min w2 h2 = d2 at hle
  split_ifs <;> linarith

/-- Witness for C5: at the concrete pair of viewports `1×1` and `2×2` the
hypotheses hold and the policy is non-increasing. -/
theorem claim_C5_witness :
    (0 : ℚ) < 1 ∧ (0 : ℚ) < 2 ∧ min (1 : ℚ) 1 ≤ min (2 : ℚ) 2 ∧
      Mandelbrot.getMaxN 2 2 ≤ Mandelbrot.getMaxN 1 1 :=
  ⟨by norm_num, by norm_num, by norm_num,
    (claim_C5_maxIterations_policy 1 1 2 2 (by norm_num) (by norm_num) (by norm_num)
      (by norm_num) (by norm_num)).1⟩

/-- C6: for the sample point `c = (3,3)` the escape loop exits after exactly
one pass (`|z|^2 = 18 > 4` after the first iteration), so the stored
iteration count is 1, and the distance-estimate expression evaluates to a
finite value at the exit state. -/
theorem claim_C6_escape_at_3_3 (maxN : ℕ) (h : 1 ≤ maxN) :
    (Mandelbrot.pixelIter maxN 3 3).n = 1 ∧
      Mandelbrot.distFinite (Mandelbrot.pixelIter maxN 3 3) := by
  have hstate : Mandelbrot.pixelIter maxN 3 3 = ⟨3, 3, 9, 9, 1, 0, 1⟩ := by
    obtain ⟨m, rfl⟩ : ∃ m, maxN = m + 1 := ⟨maxN - 1, by omega⟩
    unfold Mandelbrot.pixelIter
    rw [Mandelbrot.iterLoop, if_pos ⟨by simp only [Mandelbrot.iterInit]; omega,
      by norm_num [Mandelbrot.iterInit]⟩]
    have hstep : Mandelbrot.iterStep 3 3 Mandelbrot.iterInit = ⟨3, 3, 9, 9, 1, 0, 1⟩ := by
      norm_num [Mandelbrot.iterStep, Mandelbrot.iterInit]
    rw [hstep]
    cases m with
    | zero => rfl
    | succ m' =>
      rw [Mandelbrot.iterLoop, if_neg]
      intro hc
      norm_num at hc
  rw [hstate]
  exact ⟨rfl, by norm_num [Mandelbrot.distFinite]⟩

/-- Witness for C6 at the default iteration cap 250. -/
theorem claim_C6_witness :
    1 ≤ 250 ∧ ((Mandelbrot.pixelIter 250 3 3).n = 1 ∧
      Mandelbrot.distFinite (Mandelbrot.pixelIter 250 3 3)) :=
  ⟨by norm_num, claim_C6_escape_at_3_3 250 (by norm_num)⟩

/-- C8: `_color` returns exactly black for a pixel with `iterationCount == 0`
without consulting the scheme-specific mapping (the state, in particular
`needsColor`, is untouched), and exactly white for a pixel with
`iterationCount >= maxN` (under the checkered scheme) when the black case
does not take priority; the black case is checked first. -/
theorem claim_C8_black_and_white (st : Mandelbrot.MState) (k : ℕ) :
    (st.ns.getD k 0 = 0 → Mandelbrot.colorPixel st k = (st, (0, 0, 0))) ∧
    (st.ns.getD k 0 ≠ 0 → st.maxN ≤ st.ns.getD k 0 → st.colorFuncId = 0 →
      (Mandelbrot.colorPixel st k).2 = (255, 255, 255)) := by
  constructor
  · intro h
    rw [Mandelbrot.colorPixel, if_pos h]
  · intro h hmax hid
    rw [Mandelbrot.colorPixel, if_neg h]
    show Mandelbrot.colorFuncOf st k = _
    rw [Mandelbrot.colorFuncOf, if_pos hid]
    exact Mandelbrot.colorCheckered_white st k hmax

/-- Witness for C8: the 1×1 sample state has `ns[0] = 0` and is painted
black; the same state with `ns[0] = 251` (and `maxN = 250`, checkered scheme)
is painted white. -/
theorem claim_C8_witness :
    (Mandelbrot.sampleState.ns.getD 0 0 = 0 ∧
      Mandelbrot.colorPixel Mandelbrot.sampleState 0 = (Mandelbrot.sampleState, (0, 0, 0))) ∧
    (({ Mandelbrot.sampleState with ns := [251] } : Mandelbrot.MState).ns.getD 0 0 ≠ 0 ∧
      (Mandelbrot.colorPixel { Mandelbrot.sampleState with ns := [251] } 0).2 =
        (255, 255, 255)) :=
  ⟨⟨by decide, (claim_C8_black_and_white Mandelbrot.sampleState 0).1 (by decide)⟩,
    ⟨by decide,
      (claim_C8_black_and_white { Mandelbrot.sampleState with ns := [251] } 0).2
        (by decide) (by decide) (by decide)⟩⟩

/-- C1: at the sample point `c = (0,0)` the escape iterates stay identically
zero (so `|z|^2 <= 4` at every step of the loop) and the loop runs to `maxN`;
a scan therefore stores `iterationCount = maxN` for any pixel whose sample
point is the origin; and the checkered colour mapping returns exactly
`(255,255,255)` on any record with `iterationCount >= maxN`. -/
theorem claim_C1_origin_interior_white (st : Mandelbrot.MState) (hs : Mandelbrot.wellSized st)
    (idx : ℕ) (hidx : idx < Mandelbrot.imgSize st)
    (hcr : Mandelbrot.crAt st (idx / st.imgWidth) = 0)
    (hci : Mandelbrot.ciAt st (idx % st.imgWidth) = 0) :
    (∀ fuel : ℕ,
      (Mandelbrot.iterLoop (Mandelbrot.getMaxN st.width st.height) 0 0 fuel
        Mandelbrot.iterInit).zr = 0 ∧
      (Mandelbrot.iterLoop (Mandelbrot.getMaxN st.width st.height) 0 0 fuel
        Mandelbrot.iterInit).zi = 0 ∧
      (Mandelbrot.iterLoop (Mandelbrot.getMaxN st.width st.height) 0 0 fuel
          Mandelbrot.iterInit).tr +
        (Mandelbrot.iterLoop (Mandelbrot.getMaxN st.width st.height) 0 0 fuel
          Mandelbrot.iterInit).ti ≤ 4) ∧
    (Mandelbrot.scanRun st none).1.ns.getD idx 0 = Mandelbrot.getMaxN st.width st.height ∧
    (∀ (st' : Mandelbrot.MState) (k : ℕ), st'.maxN ≤ st'.ns.getD k 0 →
      Mandelbrot.colorCheckered st' k = (255, 255, 255)) := by
  refine ⟨?_, ?_, ?_⟩
  · intro fuel
    simp only [Mandelbrot.iterInit]
    have h := Mandelbrot.iterLoop_origin (Mandelbrot.getMaxN st.width st.height) fuel 0 0 0
      (Nat.zero_le _)
    obtain ⟨z1, z2, z3, z4, _⟩ := h
    refine ⟨z1, z2, ?_⟩
    rw [z3, z4]
    norm_num
  · have h := Mandelbrot.scanRun_none_pixRec st hs idx hidx
    rw [hcr, hci] at h
    have hns := congrArg Prod.fst h
    have horigin := Mandelbrot.iterLoop_origin (Mandelbrot.getMaxN st.width st.height)
      (Mandelbrot.getMaxN st.width st.height) 0 0 0 (Nat.zero_le _)
    have hn : (Mandelbrot.pixelIter (Mandelbrot.getMaxN st.width st.height) 0 0).n =
        Mandelbrot.getMaxN st.width st.height := by
      show (Mandelbrot.iterLoop (Mandelbrot.getMaxN st.width st.height) 0 0
        (Mandelbrot.getMaxN st.width st.height) ⟨0, 0, 0, 0, 0, 0, 0⟩).n = _
      rw [horigin.2.2.2.2]
      omega
    exact hns.trans hn
  · intro st' k h
    exact Mandelbrot.colorCheckered_white st' k h

/-- Witness for C1: on the 1×1 sample canvas the single pixel samples exactly
the origin and the scan stores `maxN` there. -/
theorem claim_C1_witness :
    Mandelbrot.wellSized Mandelbrot.sampleState ∧
    0 < Mandelbrot.imgSize Mandelbrot.sampleState ∧
    Mandelbrot.crAt Mandelbrot.sampleState (0 / Mandelbrot.sampleState.imgWidth) = 0 ∧
    Mandelbrot.ciAt Mandelbrot.sampleState (0 % Mandelbrot.sampleState.imgWidth) = 0 ∧
    (Mandelbrot.scanRun Mandelbrot.sampleState none).1.ns.getD 0 0 =
      Mandelbrot.getMaxN Mandelbrot.sampleState.width Mandelbrot.sampleState.height :=
  ⟨by decide, by decide, by norm_num [Mandelbrot.crAt, Mandelbrot.sampleState],
    by norm_num [Mandelbrot.ciAt, Mandelbrot.sampleState],
    (claim_C1_origin_interior_white Mandelbrot.sampleState (by decide) 0 (by decide)
      (by norm_num [Mandelbrot.crAt, Mandelbrot.sampleState])
      (by norm_num [Mandelbrot.ciAt, Mandelbrot.sampleState])).2.1⟩

/-- C2: if `cancel()` takes effect at row boundary `m` while the scan is in
progress (`1 ≤ m ≤ imgHeight`), the run stops at that row boundary and its
promise resolves to `false` (Cancelled); every pixel in a row the sweep never
reached keeps `iterationCount = 0`, and every pixel in a row completed before
cancellation holds exactly the record an uncancelled scan writes. -/
theorem claim_C2_cancellation (st : Mandelbrot.MState) (m : ℕ) (hs : Mandelbrot.wellSized st)
    (h1 : 1 ≤ m) (h2 : m ≤ st.imgHeight) :
    (Mandelbrot.scanRun st (some m)).2 = false ∧
    ∀ idx, idx < Mandelbrot.imgSize st →
      (m ≤ idx / st.imgWidth → (Mandelbrot.scanRun st (some m)).1.ns.getD idx 0 = 0) ∧
      (idx / st.imgWidth < m →
        Mandelbrot.pixRec (Mandelbrot.scanRun st (some m)).1 idx =
          Mandelbrot.pixRec (Mandelbrot.scanRun st none).1 idx) := by
  constructor
  · rw [Mandelbrot.scanRun_outcome]
    simp only [Mandelbrot.flagAt, decide_eq_false_iff_not]
    omega
  · intro idx hidx
    constructor
    · intro hge
      have h := Mandelbrot.scanRun_some_pixRec st m hs idx hidx
      rw [if_neg (by omega)] at h
      have hns := congrArg Prod.fst h
      have hreset := Mandelbrot.scanPrep_reset st hs idx hidx
      exact hns.trans hreset.1
    · intro hlt
      rw [Mandelbrot.scanRun_some_pixRec st m hs idx hidx, if_pos hlt,
        Mandelbrot.scanRun_none_pixRec st hs idx hidx]

/-- Witness for C2 on the 1×2 sample canvas with cancellation taking effect
at row boundary 1. -/
theorem claim_C2_witness :
    Mandelbrot.wellSized Mandelbrot.sampleState2 ∧ 1 ≤ Mandelbrot.sampleState2.imgHeight ∧
    ((Mandelbrot.scanRun Mandelbrot.sampleState2 (some 1)).2 = false ∧
      ∀ idx, idx < Mandelbrot.imgSize Mandelbrot.sampleState2 →
        (1 ≤ idx / Mandelbrot.sampleState2.imgWidth →
          (Mandelbrot.scanRun Mandelbrot.sampleState2 (some 1)).1.ns.getD idx 0 = 0) ∧
        (idx / Mandelbrot.sampleState2.imgWidth < 1 →
          Mandelbrot.pixRec (Mandelbrot.scanRun Mandelbrot.sampleState2 (some 1)).1 idx =
            Mandelbrot.pixRec (Mandelbrot.scanRun Mandelbrot.sampleState2 none).1 idx)) :=
  ⟨by decide, by decide,
    claim_C2_cancellation Mandelbrot.sampleState2 1 (by decide) (le_refl 1) (by decide)⟩

/-- C7: the five per-pixel result arrays all have length
`imgWidth * imgHeight` — after construction, after a reset, and after any
(possibly cancelled) scan run — and at the start of every scan run, before
any pixel is computed, every entry is reset: `iterationCount = 0`, the three
numeric fields `= 0`, `needsColor = 1`. -/
theorem claim_C7_array_invariants :
    (∀ w h cid : ℕ, Mandelbrot.wellSized (Mandelbrot.mkMandelbrot w h cid)) ∧
    (∀ st : Mandelbrot.MState, Mandelbrot.wellSized st →
      Mandelbrot.wellSized (Mandelbrot.resetDataStructs st) ∧
      ∀ idx, idx < Mandelbrot.imgSize st →
        (Mandelbrot.resetDataStructs st).ns.getD idx 0 = 0 ∧
        (Mandelbrot.resetDataStructs st).finalang.getD idx 0 = 0 ∧
        (Mandelbrot.resetDataStructs st).dist.getD idx 0 = 0 ∧
        (Mandelbrot.resetDataStructs st).dwell.getD idx 0 = 0 ∧
        (Mandelbrot.resetDataStructs st).pix.getD idx 0 = 1) ∧
    (∀ (st : Mandelbrot.MState) (c : Option ℕ), Mandelbrot.wellSized st →
      Mandelbrot.wellSized (Mandelbrot.scanRun st c).1) ∧
    (∀ st : Mandelbrot.MState, Mandelbrot.wellSized st → ∀ idx,
      idx < Mandelbrot.imgSize st →
      (Mandelbrot.scanPrep st).ns.getD idx 0 = 0 ∧
      (Mandelbrot.scanPrep st).finalang.getD idx 0 = 0 ∧
      (Mandelbrot.scanPrep st).dist.getD idx 0 = 0 ∧
      (Mandelbrot.scanPrep st).dwell.getD idx 0 = 0 ∧
      (Mandelbrot.scanPrep st).pix.getD idx 0 = 1) := by
  refine ⟨?_, ?_, ?_, ?_⟩
  · intro w h cid
    unfold Mandelbrot.mkMandelbrot
    refine Mandelbrot.wellSized_resetDataStructs _ ⟨?_, ?_, ?_, ?_, ?_⟩ <;>
      simp [Mandelbrot.imgSize]
  · intro st hs
    refine ⟨Mandelbrot.wellSized_resetDataStructs st hs, ?_⟩
    intro idx hidx
    have h := Mandelbrot.resetLoop_getD st (Mandelbrot.imgSize st) idx hidx
    exact ⟨h.1, h.2.1, h.2.2.1, h.2.2.2.1, h.2.2.2.2 (by rw [hs.2.2.2.2]; exact hidx)⟩
  · intro st c hs
    exact Mandelbrot.wellSized_scanRun st c hs
  · intro st hs idx hidx
    exact Mandelbrot.scanPrep_reset st hs idx hidx

/-- Witness for C7 on a freshly constructed 1×2 engine and the 1×2 sample
state. -/
theorem claim_C7_witness :
    Mandelbrot.wellSized (Mandelbrot.mkMandelbrot 1 2 0) ∧
    Mandelbrot.wellSized Mandelbrot.sampleState2 ∧
    0 < Mandelbrot.imgSize Mandelbrot.sampleState2 ∧
    Mandelbrot.wellSized (Mandelbrot.resetDataStructs Mandelbrot.sampleState2) ∧
    Mandelbrot.wellSized (Mandelbrot.scanRun Mandelbrot.sampleState2 none).1 ∧
    (Mandelbrot.scanPrep Mandelbrot.sampleState2).ns.getD 0 0 = 0 ∧
    (Mandelbrot.scanPrep Mandelbrot.sampleState2).pix.getD 0 0 = 1 :=
  ⟨claim_C7_array_invariants.1 1 2 0, by decide, by decide,
    (claim_C7_array_invariants.2.1 Mandelbrot.sampleState2 (by decide)).1,
    claim_C7_array_invariants.2.2.1 Mandelbrot.sampleState2 none (by decide),
    (claim_C7_array_invariants.2.2.2 Mandelbrot.sampleState2 (by decide) 0 (by decide)).1,
    (claim_C7_array_invariants.2.2.2 Mandelbrot.sampleState2 (by decide) 0
      (by decide)).2.2.2.2⟩

/-- C9: an (uncancelled) scan samples the pixel at row `i = k / imgWidth`,
column `j = k % imgWidth` at
`c = (center_re - height/2 + (i+1/2)·inc, center_im - width/2 + (j+1/2)·inc)`
with `inc = width / imgWidth` used on both axes (derived from the width
alone), so the sweep spans exactly the viewport height vertically iff
`width/height` equals the canvas aspect ratio `imgWidth/imgHeight`. -/
theorem claim_C9_sample_geometry (st : Mandelbrot.MState) (hs : Mandelbrot.wellSized st) :
    (∀ idx, idx < Mandelbrot.imgSize st →
      Mandelbrot.pixRec (Mandelbrot.scanRun st none).1 idx =
        Mandelbrot.iterRec (Mandelbrot.pixelIter (Mandelbrot.getMaxN st.width st.height)
          (Mandelbrot.crAt st (idx / st.imgWidth))
          (Mandelbrot.ciAt st (idx % st.imgWidth)))) ∧
    (0 < st.width → 0 < st.height → 0 < st.imgWidth → 0 < st.imgHeight →
      ((st.imgHeight : ℚ) * (st.width / (st.imgWidth : ℚ)) = st.height ↔
        st.width / st.height = (st.imgWidth : ℚ) / (st.imgHeight : ℚ))) := by
  constructor
  · intro idx hidx
    exact Mandelbrot.scanRun_none_pixRec st hs idx hidx
  · intro hw hh hiw hih
    have hiw' : ((st.imgWidth : ℚ)) ≠ 0 := Nat.cast_ne_zero.mpr (by omega)
    have hih' : ((st.imgHeight : ℚ)) ≠ 0 := Nat.cast_ne_zero.mpr (by omega)
    have hh' : st.height ≠ 0 := ne_of_gt hh
    rw [← mul_div_assoc, div_eq_iff hiw', div_eq_div_iff hh' hih']
    constructor
    · intro h
      linear_combination h
    · intro h
      linear_combination h

/-- Witness for C9 on the 1×2 sample canvas (whose width/height ratio matches
the 1:2 canvas, so the vertical span equality holds there). -/
theorem claim_C9_witness :
    Mandelbrot.wellSized Mandelbrot.sampleState2 ∧
    0 < Mandelbrot.imgSize Mandelbrot.sampleState2 ∧
    Mandelbrot.pixRec (Mandelbrot.scanRun Mandelbrot.sampleState2 none).1 0 =
      Mandelbrot.iterRec (Mandelbrot.pixelIter
        (Mandelbrot.getMaxN Mandelbrot.sampleState2.width Mandelbrot.sampleState2.height)
        (Mandelbrot.crAt Mandelbrot.sampleState2 (0 / Mandelbrot.sampleState2.imgWidth))
        (Mandelbrot.ciAt Mandelbrot.sampleState2 (0 % Mandelbrot.sampleState2.imgWidth))) ∧
    ((Mandelbrot.sampleState2.imgHeight : ℚ) *
        (Mandelbrot.sampleState2.width / (Mandelbrot.sampleState2.imgWidth : ℚ)) =
        Mandelbrot.sampleState2.height ↔
      Mandelbrot.sampleState2.width / Mandelbrot.sampleState2.height =
        (Mandelbrot.sampleState2.imgWidth : ℚ) / (Mandelbrot.sampleState2.imgHeight : ℚ)) :=
  ⟨by decide, by decide,
    (claim_C9_sample_geometry Mandelbrot.sampleState2 (by decide)).1 0 (by decide),
    (claim_C9_sample_geometry Mandelbrot.sampleState2 (by decide)).2
      (by norm_num [Mandelbrot.sampleState2]) (by norm_num [Mandelbrot.sampleState2])
      (by norm_num [Mandelbrot.sampleState2]) (by norm_num [Mandelbrot.sampleState2])⟩

/-- C10: `_color` clears a pixel's `needsColor` flag only when the pixel's
`iterationCount` is nonzero: an uncomputed pixel is painted black with the
state untouched, and, during a render pass while a scan is live, such a
pixel is written black into the image yet keeps `needsColor = 1`, so every
later pass repaints it until the scan writes it; `render` never modifies
`ns`. -/
theorem claim_C10_needsColor (st : Mandelbrot.MState) (k : ℕ) :
    (st.ns.getD k 0 = 0 →
      (Mandelbrot.colorPixel st k).1 = st ∧ (Mandelbrot.colorPixel st k).2 = (0, 0, 0)) ∧
    (st.ns.getD k 0 ≠ 0 → (Mandelbrot.colorPixel st k).1.pix = st.pix.set k 0) ∧
    (st.scanDone = false → st.ns.getD k 0 = 0 → k < Mandelbrot.imgSize st →
      st.pix.getD k 0 ≠ 0 →
      (Mandelbrot.render st).pix.getD k 0 = st.pix.getD k 0 ∧
      (Mandelbrot.render st).image.getD k (0, 0, 0) = (0, 0, 0) ∧
      (Mandelbrot.render st).ns = st.ns) := by
  refine ⟨?_, ?_, ?_⟩
  · intro h
    rw [Mandelbrot.colorPixel, if_pos h]
    exact ⟨rfl, rfl⟩
  · intro h
    rw [Mandelbrot.colorPixel, if_neg h]
  · intro hdone hzero hk hpix
    have hne : ¬(st.scanDone = true) := by
      rw [hdone]
      simp
    have hrender_pix : (Mandelbrot.render st).pix =
        (Mandelbrot.renderPixels st (Mandelbrot.imgSize st)).pix := by
      simp only [Mandelbrot.render]
      rw [if_neg hne]
      split_ifs <;> rfl
    have hrender_img : (Mandelbrot.render st).image =
        (Mandelbrot.renderPixels st (Mandelbrot.imgSize st)).image := by
      simp only [Mandelbrot.render]
      rw [if_neg hne]
      split_ifs <;> rfl
    have hrender_ns : (Mandelbrot.render st).ns =
        (Mandelbrot.renderPixels st (Mandelbrot.imgSize st)).ns := by
      simp only [Mandelbrot.render]
      rw [if_neg hne]
      split_ifs <;> rfl
    refine ⟨?_, ?_, ?_⟩
    · rw [hrender_pix, Mandelbrot.renderPixels_pix, if_neg (by tauto)]
    · rw [hrender_img, Mandelbrot.renderPixels_image]
      by_cases hl : k < st.image.length
      · rw [if_pos ⟨hk, hpix, hl⟩, Mandelbrot.colorPixel, if_pos hzero]
      · rw [if_neg (by tauto)]
        exact Mandelbrot.getD_len_le _ _ (by omega)
    · rw [hrender_ns]
      exact Mandelbrot.renderPixels_pres (fun s => s.ns)
        (fun st' k' => by rw [Mandelbrot.colorPixel]; split_ifs <;> rfl) (fun _ _ => rfl) _ st

/-- Witness for C10 on the mid-scan 1×1 sample state (black repaint keeps the
flag) and on the same state with `ns[0] = 7` (colouring consumes the flag). -/
theorem claim_C10_witness :
    (Mandelbrot.sampleState.ns.getD 0 0 = 0 ∧
      (Mandelbrot.colorPixel Mandelbrot.sampleState 0).1 = Mandelbrot.sampleState ∧
      (Mandelbrot.colorPixel Mandelbrot.sampleState 0).2 = (0, 0, 0)) ∧
    (({ Mandelbrot.sampleState with ns := [7] } : Mandelbrot.MState).ns.getD 0 0 ≠ 0 ∧
      (Mandelbrot.colorPixel { Mandelbrot.sampleState with ns := [7] } 0).1.pix =
        ({ Mandelbrot.sampleState with ns := [7] } : Mandelbrot.MState).pix.set 0 0) ∧
    (Mandelbrot.sampleState.scanDone = false ∧
      0 < Mandelbrot.imgSize Mandelbrot.sampleState ∧
      Mandelbrot.sampleState.pix.getD 0 0 ≠ 0 ∧
      (Mandelbrot.render Mandelbrot.sampleState).pix.getD 0 0 =
        Mandelbrot.sampleState.pix.getD 0 0 ∧
      (Mandelbrot.render Mandelbrot.sampleState).image.getD 0 (0, 0, 0) = (0, 0, 0)) :=
  ⟨⟨by decide, ((claim_C10_needsColor Mandelbrot.sampleState 0).1 (by decide)).1,
      ((claim_C10_needsColor Mandelbrot.sampleState 0).1 (by decide)).2⟩,
    ⟨by decide,
      (claim_C10_needsColor { Mandelbrot.sampleState with ns := [7] } 0).2.1 (by decide)⟩,
    ⟨rfl, by decide, by decide,
      ((claim_C10_needsColor Mandelbrot.sampleState 0).2.2 rfl (by decide) (by decide)
        (by decide)).1,
      ((claim_C10_needsColor Mandelbrot.sampleState 0).2.2 rfl (by decide) (by decide)
        (by decide)).2.1⟩⟩
